import Mathlib

/-!
# Paper listing page (`script.js`): filter, sort, slug and path derivation

A shallow embedding of `src/script.js`.

Modelling conventions.

* A JavaScript string is a Lean `String`, read through its list of characters.
  Only well-formed strings (no lone surrogates) are represented; on those,
  substring search by code unit and by code point agree.
* `String.prototype.toLowerCase` converts code point by code point, in the context of
  the code points around it, by the case table of the engine; the table is the field
  `lowerAt` of `Platform`, with the facts of the Unicode character database that the
  script relies on.
* The white space class of `trim` and of the regular expression `\s` is the
  ECMAScript one (`WhiteSpace` and `LineTerminator` code points).
* Numbers that reach a sort comparator are integers, the two infinities or
  `NaN`; they are modelled by `JSNum`.  The sign of a zero is not tracked: a
  comparator result of `-0` and of `+0` both mean "keep the order".
* Behaviour that depends on the host (its locale, its time zone, its Unicode tables) is
  a field of `Platform`: `localeCompare`, `Date.parse`, `toLocaleDateString`, `lowerAt`.
* A string assigned to `innerHTML` is kept as it is in the state; what the HTML parser
  makes of a row is given by `readRow`, a model of the tokenizer and of the construction
  of cells and links that answers `none` outside the part of HTML it covers.
* `Array.prototype.sort` is a stable sort: an element moves behind another one
  only when the comparator returns a positive number for the pair.
* The module-level variables and the parts of the page the script reads or
  writes form the record `State`; every function of the script that touches
  them is a function from `State` to `State`.
-/

namespace PapersPage

/-! ## Strings -/

/-- White space in the sense of ECMAScript: what `trim` strips and what `\s` matches. -/
def isJsWhitespace (c : Char) : Bool :=
  let n := c.toNat
  n = 0x09 || n = 0x0A || n = 0x0B || n = 0x0C || n = 0x0D || n = 0x20 || n = 0xA0 ||
  n = 0x1680 || (0x2000 ≤ n && n ≤ 0x200A) || n = 0x2028 || n = 0x2029 || n = 0x202F ||
  n = 0x205F || n = 0x3000 || n = 0xFEFF

/-- The character class `[:\\/?*"<>|]` of the first `replace` of `slugify`:
the colon, the backslash, the slash, `?`, `*`, the double quote, `<`, `>` and `|`. -/
def isStripped (c : Char) : Bool :=
  c = ':' || c = '\\' || c = '/' || c = '?' || c = '*' || c = '"' || c = '<' || c = '>' || c = '|'

/-- The test `c === "-"`. -/
def isHyphen (c : Char) : Bool := c = '-'

/-- Result of `s.trim()` on the characters of `s`. -/
def trimChars (l : List Char) : List Char :=
  (l.dropWhile isJsWhitespace).rdropWhile isJsWhitespace

/-- Result of `s.replace(/[...]/g, "")`: every character of the class `p` is deleted. -/
def deleteChars (p : Char → Bool) (l : List Char) : List Char := l.filter (fun c => !p c)

/-- Result of `s.replace(/p+/g, r)`: every maximal run of characters of the class `p`
is replaced by the single character `r`, which is emitted where the run ends. -/
def collapseRuns (p : Char → Bool) (r : Char) : List Char → List Char
  | [] => []
  | [c] => if p c then [r] else [c]
  | c :: d :: cs =>
    if p c then
      if p d then collapseRuns p r (d :: cs) else r :: collapseRuns p r (d :: cs)
    else c :: collapseRuns p r (d :: cs)

/-- Result of `s.replace(/^[-]+|[-]+$/g, "")`: the run of hyphens the string starts with
and the run of hyphens it ends with are deleted. -/
def stripHyphens (l : List Char) : List Char :=
  (l.dropWhile isHyphen).rdropWhile isHyphen

/-- Substring test on lists of characters: `q` starts at some position of `s`. -/
def includesChars : List Char → List Char → Bool
  | [], q => q.isEmpty
  | c :: s, q => q.isPrefixOf (c :: s) || includesChars s q

/-- The method call `s.includes(q)`. -/
def includes (s q : String) : Bool := includesChars s.data q.data

/-- The method call `xs.join(sep)` on an array of strings. -/
def join (sep : String) : List String → String
  | [] => ""
  | [x] => x
  | x :: y :: rest => x ++ sep ++ join sep (y :: rest)

/-! ## Numbers that reach a comparator -/

/-- Values of the arithmetic in the comparator of `applySort`: `NaN`, the two
infinities and the integers. -/
inductive JSNum where
  | nan
  | negInf
  | posInf
  | fin (z : Int)
  deriving DecidableEq, Repr

namespace JSNum

/-- The subtraction `x - y`. -/
def sub : JSNum → JSNum → JSNum
  | nan, _ => nan
  | _, nan => nan
  | posInf, posInf => nan
  | negInf, negInf => nan
  | posInf, _ => posInf
  | negInf, _ => negInf
  | fin _, posInf => negInf
  | fin _, negInf => posInf
  | fin a, fin b => fin (a - b)

/-- The product `x * y`. -/
def mul : JSNum → JSNum → JSNum
  | nan, _ => nan
  | _, nan => nan
  | posInf, posInf => posInf
  | posInf, negInf => negInf
  | negInf, posInf => negInf
  | negInf, negInf => posInf
  | posInf, fin b => if b = 0 then nan else if 0 < b then posInf else negInf
  | negInf, fin b => if b = 0 then nan else if 0 < b then negInf else posInf
  | fin a, posInf => if a = 0 then nan else if 0 < a then posInf else negInf
  | fin a, negInf => if a = 0 then nan else if 0 < a then negInf else posInf
  | fin a, fin b => fin (a * b)

/-- The test `x > 0`, which is false for `NaN`. -/
def isPositive : JSNum → Bool
  | posInf => true
  | fin z => decide (0 < z)
  | _ => false

/-- The test `x < 0`, which is false for `NaN`. -/
def isNegative : JSNum → Bool
  | negInf => true
  | fin z => decide (z < 0)
  | _ => false

end JSNum

/-! ## The host -/

/-- What the script takes from the host, whose locale, time zone and version of Unicode
it does not fix.

* `localeCompare a b` is `a.localeCompare(b, undefined, { sensitivity: "base" })`;
* `dateParse s` is `Date.parse(s)`;
* `toLocaleDateString s` is `new Date(s).toLocaleDateString(undefined,
  { year: "numeric", month: "short", day: "numeric" })`;
* `lowerAt before c after` is what `toLowerCase` puts for the code point `c` that stands
  between the code points `before` and `after` (the context decides for the capital
  sigma only).

The three facts about `lowerAt` hold of the Unicode character database, whose
lower-casing depends on no locale: on ASCII only `A`..`Z` change, to `a`..`z`; a code
point that lower-casing produces (a small letter or a combining mark, as in the two code
points for U+0130, and either small sigma) is left as it is by lower-casing, in every
context; lower-casing produces no white space, no hyphen and none of the characters
`slugify` deletes out of a code point that is not one already. -/
structure Platform where
  localeCompare : String → String → Int
  dateParse : String → JSNum
  toLocaleDateString : String → String
  lowerAt : List Char → Char → List Char → List Char
  lowerAt_ascii : ∀ (before : List Char) (c : Char) (after : List Char),
    c.toNat < 128 → lowerAt before c after = [c.toLower]
  lowerAt_fixed : ∀ (before : List Char) (c : Char) (after : List Char),
    ∀ d ∈ lowerAt before c after, ∀ before1 after1 : List Char, lowerAt before1 d after1 = [d]
  lowerAt_class : ∀ (before : List Char) (c : Char) (after : List Char),
    ∀ d ∈ lowerAt before c after,
      (isJsWhitespace d = true → isJsWhitespace c = true) ∧
      (isHyphen d = true → isHyphen c = true) ∧
      (isStripped d = true → isStripped c = true)

/-! ## Lower-casing and the slug -/

/-- Lower-casing of the characters that follow the characters `before`. -/
def lowerFrom (P : Platform) (before : List Char) : List Char → List Char
  | [] => []
  | c :: rest => P.lowerAt before c rest ++ lowerFrom P (before ++ [c]) rest

/-- Result of `s.toLowerCase()` on the characters of `s`. -/
def lowerChars (P : Platform) (l : List Char) : List Char := lowerFrom P [] l

/-- The method call `s.toLowerCase()`. -/
def toLowerCase (P : Platform) (s : String) : String := ⟨lowerChars P s.data⟩

/-- The chain of string operations of `slugify`, on lists of characters. -/
def slugifyChars (P : Platform) (l : List Char) : List Char :=
  stripHyphens
    (collapseRuns isHyphen '-'
      (collapseRuns isJsWhitespace '-'
        (deleteChars isStripped (trimChars (lowerChars P l)))))

/-- The function `slugify(title)`. -/
def slugify (P : Platform) (title : String) : String := ⟨slugifyChars P title.data⟩

/-- The function `normalizeSearch(text)`, which is `text.toLowerCase()`. -/
def normalizeSearch (P : Platform) (text : String) : String := toLowerCase P text

/-! ## Documents -/

/-- One record of `papers.json`.  `title` is required; the other fields may be absent. -/
structure Paper where
  title : String
  authors : Option (List String)
  presenters : Option (List String)
  date : Option String
  pdf : Option String
  deriving DecidableEq, Repr

/-- Truth value of an optional string in a condition: absent and `""` are falsy. -/
def truthy : Option String → Bool
  | none => false
  | some s => decide (s ≠ "")

/-- The expression `x || ""` for an optional string `x`. -/
def orEmpty : Option String → String
  | none => ""
  | some s => s

/-- The expression `xs || []` for an optional array `xs` (an empty array is truthy). -/
def orNil : Option (List String) → List String
  | none => []
  | some xs => xs

/-- The function `getPdfPath(paper)`. -/
def getPdfPath (P : Platform) (paper : Paper) : String :=
  if truthy paper.pdf then orEmpty paper.pdf
  else "pdfs/" ++ slugify P paper.title ++ ".pdf"

/-! ## Sorting -/

/-- One insertion of a stable sort: `a`, which stood before every element of the sorted
list, moves behind the elements `b` for which the comparator gives `cmp a b > 0`. -/
def sortInsert {α : Type} (cmp : α → α → JSNum) (a : α) : List α → List α
  | [] => [a]
  | b :: l => if (cmp a b).isPositive then b :: sortInsert cmp a l else a :: b :: l

/-- The method call `xs.sort(cmp)`, as a stable sort. -/
def jsSort {α : Type} (cmp : α → α → JSNum) : List α → List α
  | [] => []
  | a :: l => sortInsert cmp a (jsSort cmp l)

/-- Column keys: the values of `data-key` on the headers and of `sortState.key`. -/
inductive SortKey where
  | title
  | authors
  | presenters
  | date
  deriving DecidableEq, Repr

/-- Sort directions: `"asc"` and `"desc"`. -/
inductive Direction where
  | asc
  | desc
  deriving DecidableEq, Repr

/-- The constant `multiplier` of `applySort`. -/
def multiplier : Direction → JSNum
  | .asc => .fin 1
  | .desc => .fin (-1)

/-- The constant `fallback` of the comparator: the value of a missing date. -/
def fallback : Direction → JSNum
  | .asc => .posInf
  | .desc => .negInf

/-- The expression `p.date ? Date.parse(p.date + "T00:00:00") : fallback`. -/
def dateValue (P : Platform) (direction : Direction) (p : Paper) : JSNum :=
  if truthy p.date then P.dateParse (orEmpty p.date ++ "T00:00:00") else fallback direction

/-- The comparator that `applySort` hands to `filtered.sort`. -/
def comparePapers (P : Platform) (key : SortKey) (direction : Direction) (a b : Paper) : JSNum :=
  match key with
  | .date =>
    ((dateValue P direction a).sub (dateValue P direction b)).mul (multiplier direction)
  | .title =>
    (JSNum.fin (P.localeCompare a.title b.title)).mul (multiplier direction)
  | .authors =>
    (JSNum.fin (P.localeCompare (join ", " (orNil a.authors)) (join ", " (orNil b.authors)))).mul
      (multiplier direction)
  | .presenters =>
    (JSNum.fin (P.localeCompare (join ", " (orNil a.presenters))
      (join ", " (orNil b.presenters)))).mul (multiplier direction)

/-! ## Rows as markup, and what the HTML parser reads -/

/-- The template literal of `renderRows`, for the five values it interpolates. -/
def rowTemplate (title authors presenters dateLabel pdfPath : String) : String :=
  "\n      <td>" ++ title ++ "</td>\n      <td>" ++ authors ++ "</td>\n      <td>" ++
    presenters ++ "</td>\n      <td>" ++ dateLabel ++
    "</td>\n      <td>\n        <div class=\"actions\">\n          <a class=\"button primary\" href=\"" ++
    pdfPath ++ "\" target=\"_blank\" rel=\"noopener\">View</a>\n          <a class=\"button\" href=\"" ++
    pdfPath ++ "\" download>Download</a>\n        </div>\n      </td>\n    "

/-- The label `dateLabel` of `renderRows`. -/
def dateLabel (P : Platform) (paper : Paper) : String :=
  let dateValue := orEmpty paper.date
  if dateValue ≠ "" then P.toLocaleDateString (dateValue ++ "T00:00:00") else "-"

/-- The string that `renderRows` assigns to `row.innerHTML` for one document. -/
def rowMarkup (P : Platform) (paper : Paper) : String :=
  let authors := match paper.authors with
    | some xs => join ", " xs
    | none => ""
  let presenters := match paper.presenters with
    | some xs => join ", " xs
    | none => ""
  let pdfPath := getPdfPath P paper
  rowTemplate paper.title authors presenters (dateLabel P paper) pdfPath

/-- States of the HTML tokenizer that the model covers. -/
inductive HtmlMode where
  | data
  | tagOpen
  | endTagOpen
  | tagName
  | beforeAttrName
  | attrName
  | afterAttrName
  | beforeAttrValue
  | attrValueDouble
  | attrValueSingle
  | attrValueUnquoted
  | afterAttrValue
  | selfClosing
  deriving DecidableEq, Repr

/-- The tokenizer with the tag it is building, and what the tree construction has read
of the row so far: the text of the finished cells, the text of the open cell and the
`href` of the links.  The tag name, the name and the value of the open attribute and the
text of the open cell are kept last character first.  `supported` turns false when the
input leaves the part of HTML the model covers. -/
structure HtmlState where
  mode : HtmlMode
  supported : Bool
  isEnd : Bool
  tagName : List Char
  attrs : List (List Char × List Char)
  hasAttr : Bool
  attrName : List Char
  attrValue : List Char
  cells : List (List Char)
  cell : Option (List Char)
  hrefs : List (List Char)
  deriving DecidableEq, Repr

/-- The state in which the parser starts on the content of a row. -/
def htmlStart : HtmlState :=
  { mode := .data, supported := true, isEnd := false, tagName := [], attrs := [],
    hasAttr := false, attrName := [], attrValue := [], cells := [], cell := none, hrefs := [] }

/-- White space of HTML: tab, line feed, form feed, carriage return and space. -/
def isHtmlSpace (c : Char) : Bool :=
  c = '\t' || c = '\n' || c = '\x0c' || c = '\r' || c = ' '

/-- The elements the model covers besides `td` and `a`: `div` and phrasing elements
without a mode of their own. -/
def plainElements : List (List Char) :=
  ["div".data, "i".data, "b".data, "em".data, "strong".data, "span".data, "u".data,
   "small".data, "sub".data, "sup".data, "code".data]

/-- A character token: text of the open cell; between cells white space is dropped and
any other character is not covered. -/
def emitChar : HtmlState → Char → HtmlState
  | ⟨mode, supported, isEnd, tagName, attrs, hasAttr, attrName, attrValue, cells, cell, hrefs⟩, c =>
    match cell with
    | some text =>
      ⟨mode, supported, isEnd, tagName, attrs, hasAttr, attrName, attrValue, cells,
        some (c :: text), hrefs⟩
    | none =>
      ⟨mode, supported && isHtmlSpace c, isEnd, tagName, attrs, hasAttr, attrName, attrValue,
        cells, none, hrefs⟩

/-- The attributes of a tag under construction, the open one included. -/
def tagAttrs (attrs : List (List Char × List Char)) (hasAttr : Bool)
    (attrName attrValue : List Char) : List (List Char × List Char) :=
  if hasAttr then attrs ++ [(attrName.reverse, attrValue.reverse)] else attrs

/-- The value of the first attribute with the given name, empty when there is none. -/
def attrLookup (name : List Char) : List (List Char × List Char) → List Char
  | [] => []
  | (n, v) :: rest => if n = name then v else attrLookup name rest

/-- The cells once the open cell, if there is one, is closed. -/
def closeCell (cells : List (List Char)) : Option (List Char) → List (List Char)
  | some text => cells ++ [text.reverse]
  | none => cells

/-- A tag token: `td` opens a cell (closing the open one) and `/td` closes it, `a`
records its `href`, the elements of `plainElements` change nothing, and every other
element is not covered.  The tokenizer goes back to the data state. -/
def emitTag : HtmlState → HtmlState
  | ⟨_, supported, isEnd, tagName, attrs, hasAttr, attrName, attrValue, cells, cell, hrefs⟩ =>
    if tagName.reverse = "td".data then
      ⟨.data, supported, false, [], [], false, [], [], closeCell cells cell,
        if isEnd then none else some [], hrefs⟩
    else if tagName.reverse = "a".data then
      ⟨.data, supported, false, [], [], false, [], [], cells, cell,
        if isEnd then hrefs
        else hrefs ++ [attrLookup "href".data (tagAttrs attrs hasAttr attrName attrValue)]⟩
    else
      ⟨.data, supported && decide (tagName.reverse ∈ plainElements), false, [], [], false, [], [],
        cells, cell, hrefs⟩

/-- The start of a new attribute whose name begins with `c`. -/
def startAttr : HtmlState → Char → HtmlState
  | ⟨_, supported, isEnd, tagName, attrs, hasAttr, attrName, attrValue, cells, cell, hrefs⟩, c =>
    ⟨.attrName, supported, isEnd, tagName, tagAttrs attrs hasAttr attrName attrValue, true,
      [c.toLower], [], cells, cell, hrefs⟩

/-- The same state in another state of the tokenizer. -/
def setMode (m : HtmlMode) : HtmlState → HtmlState
  | ⟨_, supported, isEnd, tagName, attrs, hasAttr, attrName, attrValue, cells, cell, hrefs⟩ =>
    ⟨m, supported, isEnd, tagName, attrs, hasAttr, attrName, attrValue, cells, cell, hrefs⟩

/-- The same state, marked as outside the part of HTML the model covers. -/
def unsupported : HtmlState → HtmlState
  | ⟨mode, _, isEnd, tagName, attrs, hasAttr, attrName, attrValue, cells, cell, hrefs⟩ =>
    ⟨mode, false, isEnd, tagName, attrs, hasAttr, attrName, attrValue, cells, cell, hrefs⟩

/-- A new tag whose name begins with `c`. -/
def startTag (isEnd : Bool) : HtmlState → Char → HtmlState
  | ⟨_, supported, _, _, _, _, _, _, cells, cell, hrefs⟩, c =>
    ⟨.tagName, supported, isEnd, [c.toLower], [], false, [], [], cells, cell, hrefs⟩

/-- One more character of the tag name. -/
def pushTagName : HtmlState → Char → HtmlState
  | ⟨mode, supported, isEnd, tagName, attrs, hasAttr, attrName, attrValue, cells, cell, hrefs⟩, c =>
    ⟨mode, supported, isEnd, c.toLower :: tagName, attrs, hasAttr, attrName, attrValue, cells,
      cell, hrefs⟩

/-- One more character of the attribute name. -/
def pushAttrName : HtmlState → Char → HtmlState
  | ⟨mode, supported, isEnd, tagName, attrs, hasAttr, attrName, attrValue, cells, cell, hrefs⟩, c =>
    ⟨mode, supported, isEnd, tagName, attrs, hasAttr, c.toLower :: attrName, attrValue, cells,
      cell, hrefs⟩

/-- One more character of the attribute value, in the given state of the tokenizer. -/
def pushAttrValue (m : HtmlMode) : HtmlState → Char → HtmlState
  | ⟨_, supported, isEnd, tagName, attrs, hasAttr, attrName, attrValue, cells, cell, hrefs⟩, c =>
    ⟨m, supported, isEnd, tagName, attrs, hasAttr, attrName, c :: attrValue, cells, cell, hrefs⟩

/-- The data state. -/
def dataStep (st : HtmlState) (c : Char) : HtmlState :=
  if c = '<' then setMode .tagOpen st
  else if c = '&' then unsupported st
  else emitChar st c

/-- The state after an attribute name or value, which also serves the state before an
attribute name. -/
def afterAttrStep (st : HtmlState) (c : Char) : HtmlState :=
  if isHtmlSpace c then setMode .beforeAttrName st
  else if c = '/' then setMode .selfClosing st
  else if c = '>' then emitTag st
  else startAttr st c

/-- One step of the tokenizer on the character `c`, by the state `mode` it is in. -/
def stepIn (st : HtmlState) (c : Char) (mode : HtmlMode) : HtmlState :=
  match mode with
  | .data => dataStep st c
  | .tagOpen =>
    if c = '/' then setMode .endTagOpen st
    else if c.isAlpha then startTag false st c
    else if c = '!' ∨ c = '?' then unsupported st
    else dataStep (emitChar (setMode .data st) '<') c
  | .endTagOpen =>
    if c.isAlpha then startTag true st c
    else if c = '>' then setMode .data st
    else unsupported st
  | .tagName =>
    if isHtmlSpace c then setMode .beforeAttrName st
    else if c = '/' then setMode .selfClosing st
    else if c = '>' then emitTag st
    else pushTagName st c
  | .beforeAttrName => afterAttrStep st c
  | .attrName =>
    if isHtmlSpace c then setMode .afterAttrName st
    else if c = '/' then setMode .selfClosing st
    else if c = '>' then emitTag st
    else if c = '=' then setMode .beforeAttrValue st
    else pushAttrName st c
  | .afterAttrName =>
    if isHtmlSpace c then st
    else if c = '=' then setMode .beforeAttrValue st
    else afterAttrStep st c
  | .beforeAttrValue =>
    if isHtmlSpace c then st
    else if c = '"' then setMode .attrValueDouble st
    else if c = '\'' then setMode .attrValueSingle st
    else if c = '>' then emitTag st
    else if c = '&' then unsupported st
    else pushAttrValue .attrValueUnquoted st c
  | .attrValueDouble =>
    if c = '"' then setMode .afterAttrValue st
    else if c = '&' then unsupported st
    else pushAttrValue .attrValueDouble st c
  | .attrValueSingle =>
    if c = '\'' then setMode .afterAttrValue st
    else if c = '&' then unsupported st
    else pushAttrValue .attrValueSingle st c
  | .attrValueUnquoted =>
    if isHtmlSpace c then setMode .beforeAttrName st
    else if c = '>' then emitTag st
    else if c = '&' then unsupported st
    else pushAttrValue .attrValueUnquoted st c
  | .afterAttrValue => afterAttrStep st c
  | .selfClosing =>
    if c = '>' then emitTag st else afterAttrStep st c

/-- One step of the tokenizer on the character `c`. -/
def htmlStep : HtmlState → Char → HtmlState
  | ⟨mode, supported, isEnd, tagName, attrs, hasAttr, attrName, attrValue, cells, cell, hrefs⟩, c =>
    stepIn
      ⟨mode, supported, isEnd, tagName, attrs, hasAttr, attrName, attrValue, cells, cell, hrefs⟩
      c mode

/-- What is read of a row: the text of its cells and the `href` of its links, in
document order. -/
structure RowView where
  cells : List String
  hrefs : List String
  deriving DecidableEq, Repr

/-- The cells and links that the HTML parser builds from the content of a row; `none`
when the content is outside the part of HTML the model covers or ends inside a tag or a
cell. -/
def readRow (markup : String) : Option RowView :=
  let st := markup.data.foldl htmlStep htmlStart
  if st.supported ∧ st.mode = .data ∧ st.cell = none then
    some { cells := st.cells.map String.mk, hrefs := st.hrefs.map String.mk }
  else none

/-! ## The page state -/

/-- The variable `sortState`. -/
structure SortState where
  key : SortKey
  direction : Direction
  deriving DecidableEq, Repr

/-- One element of `headers`: its `data-key` and its `aria-sort` attribute. -/
structure Header where
  key : SortKey
  ariaSort : Option String
  deriving DecidableEq, Repr

/-- One row of the table body: a row with the single cell of class `status-cell` and the
given text, or a row for a document, with the string assigned to its `innerHTML`. -/
inductive Row where
  | status (text : String)
  | paper (markup : String)
  deriving DecidableEq, Repr

/-- The variables `papers`, `filtered`, `sortState` and the page elements in use:
the value of the search box, the rows of the table body and the column headers. -/
structure State where
  papers : List Paper
  filtered : List Paper
  sortState : SortState
  searchInput : String
  tableBody : List Row
  headers : List Header
  deriving DecidableEq, Repr

/-- The state when the script has run its declarations and nothing else: both
collections empty, sort state title ascending, empty search box and table body. -/
def initialState (headers : List Header) : State :=
  { papers := [], filtered := [], sortState := ⟨.title, .asc⟩, searchInput := "",
    tableBody := [], headers := headers }

/-- The row that `renderRows` appends for one document. -/
def renderRow (P : Platform) (paper : Paper) : Row := Row.paper (rowMarkup P paper)

/-- The function `renderRows(rows)`: the new content of the table body. -/
def renderRows (P : Platform) (rows : List Paper) : List Row :=
  if rows.length = 0 then [Row.status "No papers match your search."]
  else rows.map (renderRow P)

/-- The value written to `aria-sort` of a header by `applySort`. -/
def ariaValue (key : SortKey) (direction : Direction) (headerKey : SortKey) : String :=
  if headerKey = key then (if direction = .asc then "ascending" else "descending") else "none"

/-- The function `applySort(key, direction, updateHeader)`. -/
def applySort (P : Platform) (key : SortKey) (direction : Direction) (updateHeader : Bool)
    (s : State) : State :=
  let filtered := jsSort (comparePapers P key direction) s.filtered
  { s with
    filtered := filtered
    sortState := ⟨key, direction⟩
    tableBody := renderRows P filtered
    headers :=
      if updateHeader then
        s.headers.map (fun header => { header with ariaSort := some (ariaValue key direction header.key) })
      else s.headers }

/-- The callback of `papers.filter` in `applySearch`, for the normalised `query`. -/
def matchesQuery (P : Platform) (query : String) (paper : Paper) : Bool :=
  let title := normalizeSearch P paper.title
  let authors := normalizeSearch P (join ", " (orNil paper.authors))
  let presenters := normalizeSearch P (join ", " (orNil paper.presenters))
  let date := normalizeSearch P (orEmpty paper.date)
  includes title query || includes authors query || includes presenters query ||
    includes date query

/-- The filter step of `applySearch`: `papers.filter(...)` for the text of the search box. -/
def filterPapers (P : Platform) (papers : List Paper) (searchValue : String) : List Paper :=
  papers.filter (matchesQuery P (normalizeSearch P searchValue))

/-- The function `applySearch()`. -/
def applySearch (P : Platform) (s : State) : State :=
  applySort P s.sortState.key s.sortState.direction false
    { s with filtered := filterPapers P s.papers s.searchInput }

/-- The direction `nextDirection` computed by `handleHeaderClick`. -/
def nextDirection (sortState : SortState) (key : SortKey) : Direction :=
  if sortState.key = key then (if sortState.direction = .asc then .desc else .asc) else .asc

/-- The function `handleHeaderClick(event)`, for the `data-key` of the clicked header. -/
def handleHeaderClick (P : Platform) (key : SortKey) (s : State) : State :=
  applySort P key (nextDirection s.sortState key) true s

/-- How the request of `loadPapers` ends: the fetch is rejected, the response is not
`ok`, the body does not parse, or the body parses to a collection. -/
inductive FetchResult where
  | rejected
  | notOk
  | badJson
  | ok (collection : List Paper)
  deriving DecidableEq, Repr

/-- The text of the row shown by the `catch` branch of `loadPapers`. -/
def loadFailedText : String := "Failed to load papers. Check that papers.json is present."

/-- The function `loadPapers()`, for the outcome of its request. -/
def loadPapers (P : Platform) (r : FetchResult) (s : State) : State :=
  match r with
  | .ok collection =>
    applySort P s.sortState.key s.sortState.direction true
      { s with papers := collection, filtered := collection }
  | _ => { s with tableBody := [Row.status loadFailedText] }

/-- The events the script listens to: `input` on the search box (with the new text of
the box) and `click` on a column header (with its `data-key`). -/
inductive Event where
  | input (value : String)
  | click (key : SortKey)
  deriving DecidableEq, Repr

/-- The listener that runs for one event. -/
def step (P : Platform) (s : State) : Event → State
  | .input value => applySearch P { s with searchInput := value }
  | .click key => handleHeaderClick P key s

/-- The state after a sequence of events. -/
def run (P : Platform) (s : State) (events : List Event) : State :=
  events.foldl (step P) s

/-- The view the specification describes: the full set filtered by the query, then
sorted by the sort state. -/
def specView (P : Platform) (papers : List Paper) (searchValue : String)
    (sortState : SortState) : List Paper :=
  jsSort (comparePapers P sortState.key sortState.direction) (filterPapers P papers searchValue)

/-! ## A reference host: UTC, Latin-1 case table, collation by code point -/

/-- Three-way comparison of two lists of characters by code point. -/
def compareChars : List Char → List Char → Int
  | [], [] => 0
  | [], _ :: _ => -1
  | _ :: _, [] => 1
  | a :: s, b :: t => if a.toNat < b.toNat then -1 else if b.toNat < a.toNat then 1 else compareChars s t

/-- The value of a decimal digit. -/
def digitValue (c : Char) : Option Nat :=
  if 48 ≤ c.toNat ∧ c.toNat ≤ 57 then some (c.toNat - 48) else none

/-- Whether `y` is a leap year of the Gregorian calendar. -/
def isLeapYear (y : Nat) : Bool := (y % 4 = 0 && y % 100 ≠ 0) || y % 400 = 0

/-- Number of days of month `m` of year `y`. -/
def daysInMonth (y m : Nat) : Nat :=
  if m = 2 then (if isLeapYear y then 29 else 28)
  else if m = 4 ∨ m = 6 ∨ m = 9 ∨ m = 11 then 30 else 31

/-- Year, month and day of a string of the form `YYYY-MM-DD` that names a day of the
calendar. -/
def parseYMD : List Char → Option (Nat × Nat × Nat)
  | [y1, y2, y3, y4, '-', m1, m2, '-', d1, d2] =>
    match digitValue y1, digitValue y2, digitValue y3, digitValue y4,
      digitValue m1, digitValue m2, digitValue d1, digitValue d2 with
    | some a, some b, some c, some d, some e, some f, some g, some h =>
      let y := 1000 * a + 100 * b + 10 * c + d
      let m := 10 * e + f
      let dd := 10 * g + h
      if 1 ≤ m ∧ m ≤ 12 ∧ 1 ≤ dd ∧ dd ≤ daysInMonth y m then some (y, m, dd) else none
    | _, _, _, _, _, _, _, _ => none
  | _ => none

/-- A date in `YYYY-MM-DD` form. -/
def isISODate (s : String) : Bool := (parseYMD s.data).isSome

/-- Days from 1970-01-01 to the given day of the Gregorian calendar. -/
def daysFromCivil (y m d : Nat) : Int :=
  let y' : Int := if m ≤ 2 then (y : Int) - 1 else y
  let era : Int := y' / 400
  let yoe : Int := y' - era * 400
  let mp : Int := if m ≤ 2 then (m : Int) + 9 else (m : Int) - 3
  let doy : Int := (153 * mp + 2) / 5 + d - 1
  let doe : Int := yoe * 365 + yoe / 4 - yoe / 100 + doy
  era * 146097 + doe - 719468

/-- The call `Date.parse` in the time zone UTC, on strings `YYYY-MM-DDT00:00:00`;
every other string gives `NaN`. -/
def utcDateParse (s : String) : JSNum :=
  match parseYMD (s.data.take 10), decide (s.data.drop 10 = "T00:00:00".data) with
  | some (y, m, d), true => .fin (daysFromCivil y m d * 86400000)
  | _, _ => .nan

/-- Decimal digits of a number below ten thousand, without leading zeros. -/
def showNat (n : Nat) : String :=
  let digit (k : Nat) : Char := Char.ofNat (48 + k % 10)
  if n < 10 then ⟨[digit n]⟩
  else if n < 100 then ⟨[digit (n / 10), digit n]⟩
  else if n < 1000 then ⟨[digit (n / 100), digit (n / 10), digit n]⟩
  else ⟨[digit (n / 1000), digit (n / 100), digit (n / 10), digit n]⟩

/-- Short English name of month `m`. -/
def monthName (m : Nat) : String :=
  ["Jan", "Feb", "Mar", "Apr", "May", "Jun", "Jul", "Aug", "Sep", "Oct", "Nov", "Dec"].getD (m - 1) ""

/-- The date label in the locale `en-US`, such as `Jan 5, 2024`. -/
def utcDateLabel (s : String) : String :=
  match parseYMD (s.data.take 10), decide (s.data.drop 10 = "T00:00:00".data) with
  | some (y, m, d), true => monthName m ++ " " ++ showNat d ++ ", " ++ showNat y
  | _, _ => "Invalid Date"

/-- Lower-casing on ASCII and on the Latin-1 supplement: `A`..`Z` and the capital letters
from U+00C0 to U+00DE (U+00D7, the multiplication sign, is no letter) move up by 32. -/
def latin1Lower (c : Char) : Char :=
  if (65 ≤ c.toNat ∧ c.toNat ≤ 90) ∨ (192 ≤ c.toNat ∧ c.toNat ≤ 222 ∧ c.toNat ≠ 215) then
    Char.ofNat (c.toNat + 32)
  else c

/-- A host in the time zone UTC whose case table covers ASCII and the Latin-1 supplement
and that collates by lower-cased code points. -/
def utcHost : Platform :=
  { localeCompare := fun a b =>
      compareChars (a.data.map latin1Lower) (b.data.map latin1Lower)
    dateParse := utcDateParse
    toLocaleDateString := utcDateLabel
    lowerAt := fun _ c _ => [latin1Lower c]
    lowerAt_ascii := by
      intro _ c _ h
      have e : latin1Lower c = c.toLower := by
        unfold latin1Lower Char.toLower
        by_cases h1 : 65 ≤ c.toNat ∧ c.toNat ≤ 90
        · simp [h1]
        · have h2 : ¬ ((65 ≤ c.toNat ∧ c.toNat ≤ 90) ∨
              (192 ≤ c.toNat ∧ c.toNat ≤ 222 ∧ c.toNat ≠ 215)) := by omega
          have h3 : ¬ (c.toNat ≥ 65 ∧ c.toNat ≤ 90) := h1
          rw [if_neg h2, if_neg h3]
      show [latin1Lower c] = [c.toLower]
      rw [e]
    lowerAt_fixed := by
      intro _ c _ d hd _ _
      have key : ∀ n : Nat, ((65 ≤ n ∧ n ≤ 90) ∨ (192 ≤ n ∧ n ≤ 222 ∧ n ≠ 215)) →
          latin1Lower (latin1Lower (Char.ofNat n)) = latin1Lower (Char.ofNat n) := by
        intro n hn
        rcases hn with ⟨h1, h2⟩ | ⟨h1, h2, h3⟩ <;> interval_cases n <;> decide
      have hfix : latin1Lower (latin1Lower c) = latin1Lower c := by
        by_cases hr : (65 ≤ c.toNat ∧ c.toNat ≤ 90) ∨
            (192 ≤ c.toNat ∧ c.toNat ≤ 222 ∧ c.toNat ≠ 215)
        · have := key c.toNat hr
          rwa [Char.ofNat_toNat] at this
        · have e : latin1Lower c = c := by
            unfold latin1Lower
            simp only [hr, if_false]
          rw [e, e]
      have hd1 : d = latin1Lower c := List.mem_singleton.1 hd
      show [latin1Lower d] = [d]
      rw [hd1, hfix]
    lowerAt_class := by
      intro _ c _ d hd
      have key : ∀ n : Nat, ((65 ≤ n ∧ n ≤ 90) ∨ (192 ≤ n ∧ n ≤ 222 ∧ n ≠ 215)) →
          isJsWhitespace (latin1Lower (Char.ofNat n)) = false ∧
          isHyphen (latin1Lower (Char.ofNat n)) = false ∧
          isStripped (latin1Lower (Char.ofNat n)) = false := by
        intro n hn
        rcases hn with ⟨h1, h2⟩ | ⟨h1, h2, h3⟩ <;> interval_cases n <;> decide
      have hd1 : d = latin1Lower c := List.mem_singleton.1 hd
      rw [hd1]
      by_cases hr : (65 ≤ c.toNat ∧ c.toNat ≤ 90) ∨
          (192 ≤ c.toNat ∧ c.toNat ≤ 222 ∧ c.toNat ≠ 215)
      · have h := key c.toNat hr
        rw [Char.ofNat_toNat] at h
        refine ⟨?_, ?_, ?_⟩ <;> intro hh
        · rw [h.1] at hh; cases hh
        · rw [h.2.1] at hh; cases hh
        · rw [h.2.2] at hh; cases hh
      · have e : latin1Lower c = c := by
          unfold latin1Lower
          simp only [hr, if_false]
        rw [e]
        exact ⟨id, id, id⟩ }

/-- The collection of the end-to-end scenario. -/
def paperA : Paper := ⟨"A Paper", none, none, some "2024-01-01", none⟩

/-- Second document of the scenario. -/
def paperB : Paper := ⟨"B Paper", none, none, some "2024-02-01", none⟩

/-- Third document of the scenario, which has no date. -/
def paperC : Paper := ⟨"C Paper", none, none, none, none⟩

/-- The collection of the end-to-end scenario, in load order. -/
def scenario : List Paper := [paperB, paperA, paperC]

/-! ## Notions of the specification -/

/-- The condition the specification gives for a document to match a query: the
lower-cased query occurs in the lower-cased title, in the lower-cased authors joined by
", ", in the lower-cased presenters joined by ", " or in the lower-cased date, an absent
field counting as empty. -/
def SpecMatches (P : Platform) (q : String) (D : Paper) : Prop :=
  (toLowerCase P q).data <:+: (toLowerCase P D.title).data ∨
  (toLowerCase P q).data <:+: (toLowerCase P (", ".intercalate (D.authors.getD []))).data ∨
  (toLowerCase P q).data <:+: (toLowerCase P (", ".intercalate (D.presenters.getD []))).data ∨
  (toLowerCase P q).data <:+: (toLowerCase P (D.date.getD "")).data

/-- Two neighbouring characters that are not both hyphens. -/
def NoDoubleHyphen (a b : Char) : Prop := ¬ (a = '-' ∧ b = '-')

/-- The time value of the date of a document: `Date.parse(p.date + "T00:00:00")`. -/
def dateTime (P : Platform) (p : Paper) : JSNum :=
  P.dateParse (orEmpty p.date ++ "T00:00:00")

/-- Rank of a document in the order of the date column: its time value when it has a
date (negated for the descending direction), and a rank above every time value when it
has no date or its date does not parse. -/
def dateRank (P : Platform) (direction : Direction) (p : Paper) : WithTop Int :=
  if truthy p.date then
    match dateTime P p, direction with
    | .fin t, .asc => ((t : Int) : WithTop Int)
    | .fin t, .desc => ((-t : Int) : WithTop Int)
    | _, _ => ⊤
  else ⊤

/-- The opposite direction. -/
def Direction.flip : Direction → Direction
  | .asc => .desc
  | .desc => .asc

/-- The text of the search box at the last `input` event of a sequence of events, if
there was one. -/
def lastInput (events : List Event) : Option String :=
  events.foldl (fun q e => match e with
    | .input value => some value
    | .click _ => q) none

/-- A string that the HTML parser reads as text: it has no `<` and no `&`. -/
def PlainText (s : String) : Prop := ∀ c ∈ s.data, c ≠ '<' ∧ c ≠ '&'

/-- A string that the HTML parser reads as the whole of an attribute value between
double quotes: it has no `"` and no `&`. -/
def PlainAttr (s : String) : Prop := ∀ c ∈ s.data, c ≠ '"' ∧ c ≠ '&'

/-- The text of the row `renderRows` shows for an empty list. -/
def noMatchText : String := "No papers match your search."

end PapersPage

/-! # Theorems -/

namespace PapersPage

/-! ## Substring search and the filter step -/

theorem includesChars_iff (s q : List Char) : includesChars s q = true ↔ q <:+: s := by
  induction s with
  | nil => simp [includesChars, List.infix_nil]
  | cons c s ih =>
    simp only [includesChars, Bool.or_eq_true, ih, List.infix_cons_iff]
    simp

theorem includes_iff (s q : String) : includes s q = true ↔ q.data <:+: s.data :=
  includesChars_iff s.data q.data

theorem includes_empty (s : String) : includes s "" = true := by
  rw [includes_iff]
  exact List.nil_infix

theorem normalizeSearch_empty (P : Platform) : normalizeSearch P "" = "" := rfl

theorem matchesQuery_empty (P : Platform) (paper : Paper) : matchesQuery P "" paper = true := by
  simp [matchesQuery, includes_empty]

theorem filterPapers_empty (P : Platform) (papers : List Paper) :
    filterPapers P papers "" = papers := by
  simp [filterPapers, normalizeSearch_empty, matchesQuery_empty]

theorem lowerFrom_ascii (P : Platform) (before l : List Char) (h : ∀ c ∈ l, c.toNat < 128) :
    lowerFrom P before l = l.map Char.toLower := by
  induction l generalizing before with
  | nil => rfl
  | cons c rest ih =>
    rw [lowerFrom, P.lowerAt_ascii before c rest (h c (List.mem_cons_self c rest)),
      ih _ (fun d hd => h d (List.mem_cons_of_mem c hd))]
    rfl

theorem toLowerCase_ascii (P : Platform) (s : String) (h : ∀ c ∈ s.data, c.toNat < 128) :
    toLowerCase P s = ⟨s.data.map Char.toLower⟩ := by
  show (⟨lowerFrom P [] s.data⟩ : String) = _
  rw [lowerFrom_ascii P [] s.data h]

theorem intercalate_go (sep acc : String) (l : List String) :
    String.intercalate.go acc sep l
      = acc ++ (match l with
        | [] => ""
        | x :: rest => sep ++ join sep (x :: rest)) := by
  induction l generalizing acc with
  | nil => simp [String.intercalate.go]
  | cons x rest ih =>
    rw [String.intercalate.go, ih]
    cases rest with
    | nil => simp [join, String.append_assoc]
    | cons y rest => simp [join, String.append_assoc]

theorem join_eq_intercalate (sep : String) (l : List String) :
    join sep l = sep.intercalate l := by
  cases l with
  | nil => rfl
  | cons x rest =>
    rw [String.intercalate, intercalate_go]
    cases rest with
    | nil => simp [join]
    | cons y rest => simp [join, String.append_assoc]

theorem orNil_eq_getD (xs : Option (List String)) : orNil xs = xs.getD [] := by
  cases xs <;> rfl

theorem orEmpty_eq_getD (x : Option String) : orEmpty x = x.getD "" := by
  cases x <;> rfl

theorem matchesQuery_iff (P : Platform) (q : String) (D : Paper) :
    matchesQuery P (normalizeSearch P q) D = true ↔ SpecMatches P q D := by
  simp only [matchesQuery, SpecMatches, Bool.or_eq_true, includes_iff, or_assoc,
    normalizeSearch, join_eq_intercalate, orNil_eq_getD, orEmpty_eq_getD]

/-- C1: the filter step of `applySearch` keeps exactly the documents for which the
lower-cased query is a substring of the lower-cased title, of the lower-cased authors
joined by ", ", of the lower-cased presenters joined by ", " or of the lower-cased date
(an absent field counts as empty); the documents kept stand in the order of `papers`, the
result being a sublist of it.  On the scenario the query "2024-01" keeps only A Paper; a
query may run over two authors and the ", " between them; and on a host whose case table
covers it, the query "é" keeps the title "Émile Zola". -/
theorem filterPapers_spec (P : Platform) (papers : List Paper) (q : String) :
    (∀ D, D ∈ filterPapers P papers q ↔ D ∈ papers ∧ SpecMatches P q D) ∧
    List.Sublist (filterPapers P papers q) papers ∧
    filterPapers P scenario "2024-01" = [paperA] ∧
    filterPapers utcHost
        [⟨"T", some ["Ann Lee", "Bob Ray"], none, none, none⟩,
         ⟨"U", some ["Ann Lee"], some ["Bob Ray"], none, none⟩] "LEE, bob"
      = [⟨"T", some ["Ann Lee", "Bob Ray"], none, none, none⟩] ∧
    filterPapers utcHost [paperB, ⟨"Émile Zola", none, none, none, none⟩] "é"
      = [⟨"Émile Zola", none, none, none, none⟩] := by
  refine ⟨?_, List.filter_sublist _, ?_, by decide, by decide⟩
  · intro D
    simp [filterPapers, matchesQuery_iff]
  · have e0 := toLowerCase_ascii P "2024-01" (by decide)
    have e1 := toLowerCase_ascii P "A Paper" (by decide)
    have e2 := toLowerCase_ascii P "B Paper" (by decide)
    have e3 := toLowerCase_ascii P "C Paper" (by decide)
    have e4 := toLowerCase_ascii P "2024-01-01" (by decide)
    have e5 := toLowerCase_ascii P "2024-02-01" (by decide)
    have e6 := toLowerCase_ascii P "" (by decide)
    simp only [filterPapers, scenario, paperA, paperB, paperC, List.filter, matchesQuery,
      normalizeSearch, join, orNil, orEmpty, e0, e1, e2, e3, e4, e5, e6]
    decide

/-! ## Sorting permutes -/

theorem sortInsert_perm {α : Type} (cmp : α → α → JSNum) (a : α) (l : List α) :
    List.Perm (sortInsert cmp a l) (a :: l) := by
  induction l with
  | nil => exact List.Perm.refl _
  | cons b l ih =>
    unfold sortInsert
    split
    · exact (List.Perm.cons b ih).trans (List.Perm.swap a b l)
    · exact List.Perm.refl _

theorem jsSort_perm {α : Type} (cmp : α → α → JSNum) (l : List α) :
    List.Perm (jsSort cmp l) l := by
  induction l with
  | nil => exact List.Perm.refl _
  | cons a l ih => exact (sortInsert_perm cmp a _).trans (List.Perm.cons a ih)

theorem mem_sortInsert {α : Type} (cmp : α → α → JSNum) (a x : α) (l : List α) :
    x ∈ sortInsert cmp a l ↔ x = a ∨ x ∈ l := by
  rw [(sortInsert_perm cmp a l).mem_iff, List.mem_cons]

/-! ## Frame facts of the operations -/

@[simp] theorem applySort_papers (P : Platform) (k : SortKey) (d : Direction) (u : Bool)
    (s : State) : (applySort P k d u s).papers = s.papers := rfl

@[simp] theorem applySort_filtered (P : Platform) (k : SortKey) (d : Direction) (u : Bool)
    (s : State) : (applySort P k d u s).filtered = jsSort (comparePapers P k d) s.filtered := rfl

@[simp] theorem applySort_sortState (P : Platform) (k : SortKey) (d : Direction) (u : Bool)
    (s : State) : (applySort P k d u s).sortState = ⟨k, d⟩ := rfl

@[simp] theorem applySort_searchInput (P : Platform) (k : SortKey) (d : Direction) (u : Bool)
    (s : State) : (applySort P k d u s).searchInput = s.searchInput := rfl

@[simp] theorem applySearch_papers (P : Platform) (s : State) :
    (applySearch P s).papers = s.papers := rfl

@[simp] theorem applySearch_filtered (P : Platform) (s : State) :
    (applySearch P s).filtered = specView P s.papers s.searchInput s.sortState := rfl

@[simp] theorem applySearch_sortState (P : Platform) (s : State) :
    (applySearch P s).sortState = s.sortState := rfl

@[simp] theorem applySearch_searchInput (P : Platform) (s : State) :
    (applySearch P s).searchInput = s.searchInput := rfl

@[simp] theorem handleHeaderClick_papers (P : Platform) (k : SortKey) (s : State) :
    (handleHeaderClick P k s).papers = s.papers := rfl

@[simp] theorem handleHeaderClick_filtered (P : Platform) (k : SortKey) (s : State) :
    (handleHeaderClick P k s).filtered
      = jsSort (comparePapers P k (nextDirection s.sortState k)) s.filtered := rfl

@[simp] theorem handleHeaderClick_sortState (P : Platform) (k : SortKey) (s : State) :
    (handleHeaderClick P k s).sortState = ⟨k, nextDirection s.sortState k⟩ := rfl

@[simp] theorem handleHeaderClick_searchInput (P : Platform) (k : SortKey) (s : State) :
    (handleHeaderClick P k s).searchInput = s.searchInput := rfl

@[simp] theorem loadPapers_ok_papers (P : Platform) (c : List Paper) (s : State) :
    (loadPapers P (.ok c) s).papers = c := rfl

@[simp] theorem loadPapers_ok_filtered (P : Platform) (c : List Paper) (s : State) :
    (loadPapers P (.ok c) s).filtered
      = jsSort (comparePapers P s.sortState.key s.sortState.direction) c := rfl

@[simp] theorem loadPapers_ok_sortState (P : Platform) (c : List Paper) (s : State) :
    (loadPapers P (.ok c) s).sortState = s.sortState := rfl

@[simp] theorem loadPapers_ok_searchInput (P : Platform) (c : List Paper) (s : State) :
    (loadPapers P (.ok c) s).searchInput = s.searchInput := rfl

theorem step_papers (P : Platform) (s : State) (e : Event) : (step P s e).papers = s.papers := by
  cases e <;> rfl

theorem run_papers (P : Platform) (s : State) (es : List Event) :
    (run P s es).papers = s.papers := by
  induction es generalizing s with
  | nil => rfl
  | cons e es ih =>
    show (run P (step P s e) es).papers = s.papers
    rw [ih, step_papers]

theorem run_append (P : Platform) (s : State) (es : List Event) (e : Event) :
    run P s (es ++ [e]) = step P (run P s es) e := by
  simp [run, List.foldl_append]

/-- C3: after a search with any query `q`, the filter step for the empty query gives back
the full loaded collection, every document once and in load order, whatever the view was
before; the view after that second search is this collection under the current sort. -/
theorem filter_roundtrip (P : Platform) (s : State) (q : String) :
    filterPapers P (step P s (.input q)).papers "" = s.papers ∧
    (step P (step P s (.input q)) (.input "")).filtered
      = jsSort (comparePapers P s.sortState.key s.sortState.direction) s.papers ∧
    (step P (step P s (.input q)) (.input "")).papers = s.papers ∧
    ∀ view : List Paper, filterPapers P ({ s with filtered := view }).papers "" = s.papers := by
  refine ⟨?_, ?_, rfl, ?_⟩
  · exact filterPapers_empty P _
  · show specView P s.papers "" s.sortState = _
    simp [specView, filterPapers_empty]
  · intro view
    exact filterPapers_empty P _

theorem slugifyChars_ascii (P : Platform) (l : List Char) (h : ∀ c ∈ l, c.toNat < 128) :
    slugifyChars P l
      = stripHyphens (collapseRuns isHyphen '-' (collapseRuns isJsWhitespace '-'
          (deleteChars isStripped (trimChars (l.map Char.toLower))))) := by
  unfold slugifyChars lowerChars
  rw [lowerFrom_ascii P [] l h]

/-- C6: `getPdfPath` returns a non-empty `pdf` field unchanged; when `pdf` is absent or
the empty string it returns "pdfs/" followed by the slug of the title and ".pdf".  The
path "custom/x.pdf" is returned as it is, and the title "My Paper" without a `pdf`
gives "pdfs/my-paper.pdf". -/
theorem getPdfPath_spec (P : Platform) :
    (∀ (paper : Paper) (p : String), paper.pdf = some p → p ≠ "" → getPdfPath P paper = p) ∧
    (∀ paper : Paper, paper.pdf = none ∨ paper.pdf = some "" →
      getPdfPath P paper = "pdfs/" ++ slugify P paper.title ++ ".pdf") ∧
    (∀ t a pr d, getPdfPath P ⟨t, a, pr, d, some "custom/x.pdf"⟩ = "custom/x.pdf") ∧
    (∀ a pr d, getPdfPath P ⟨"My Paper", a, pr, d, none⟩ = "pdfs/my-paper.pdf") := by
  refine ⟨?_, ?_, ?_, ?_⟩
  · intro paper p hp hne
    simp [getPdfPath, hp, truthy, orEmpty, hne]
  · intro paper h
    rcases h with h | h <;> simp [getPdfPath, h, truthy]
  · intro t a pr d
    simp [getPdfPath, truthy, orEmpty]
  · intro a pr d
    have h : slugify P "My Paper" = "my-paper" := by
      show (⟨slugifyChars P "My Paper".data⟩ : String) = _
      rw [slugifyChars_ascii P _ (by decide)]
      decide
    simp [getPdfPath, truthy, h]

/-- Witness of C6 on two documents. -/
theorem getPdfPath_spec_witness :
    getPdfPath utcHost ⟨"X", none, none, none, some "custom/x.pdf"⟩ = "custom/x.pdf" ∧
    getPdfPath utcHost ⟨"My Paper", none, none, none, some ""⟩
      = "pdfs/" ++ slugify utcHost "My Paper" ++ ".pdf" :=
  ⟨(getPdfPath_spec utcHost).1 _ _ rfl (by decide), (getPdfPath_spec utcHost).2.1 _ (Or.inr rfl)⟩

/-- C9: the documented values of `slugify`. -/
theorem slugify_examples (P : Platform) :
    slugify P "Hello: World?" = "hello-world" ∧ slugify P "  A   B  " = "a-b" ∧
    slugify P "---" = "" := by
  refine ⟨?_, ?_, ?_⟩
  · show (⟨slugifyChars P "Hello: World?".data⟩ : String) = _
    rw [slugifyChars_ascii P _ (by decide)]
    decide
  · show (⟨slugifyChars P "  A   B  ".data⟩ : String) = _
    rw [slugifyChars_ascii P _ (by decide)]
    decide
  · show (⟨slugifyChars P "---".data⟩ : String) = _
    rw [slugifyChars_ascii P _ (by decide)]
    decide

/-- C10: a click on the header with key `k` sets the sort state to `k` with the opposite
of the current direction when `k` is the current key, and to `k` ascending when it is
not; two clicks on the active header give back the sort state, and the first click on
another header sorts ascending. -/
theorem handleHeaderClick_sortState_spec (P : Platform) (s : State) (k : SortKey) :
    (handleHeaderClick P k s).sortState
      = (if k = s.sortState.key then ⟨k, s.sortState.direction.flip⟩ else ⟨k, .asc⟩) ∧
    (handleHeaderClick P s.sortState.key (handleHeaderClick P s.sortState.key s)).sortState
      = s.sortState ∧
    (k ≠ s.sortState.key → (handleHeaderClick P k s).sortState = ⟨k, .asc⟩) := by
  obtain ⟨papers, filtered, ⟨key, dir⟩, q, body, hdrs⟩ := s
  refine ⟨?_, ?_, ?_⟩
  · simp only [handleHeaderClick_sortState, nextDirection]
    by_cases h : k = key
    · subst h; cases dir <;> simp [Direction.flip]
    · have h' : ¬ key = k := fun e => h e.symm
      simp [h, h']
  · simp only [handleHeaderClick_sortState, nextDirection]
    cases dir <;> simp
  · intro h
    have h' : ¬ key = k := fun e => h e.symm
    simp [handleHeaderClick_sortState, nextDirection, h']

/-- Witness of C10: from title ascending, a click on the date header. -/
theorem handleHeaderClick_sortState_spec_witness :
    (handleHeaderClick utcHost .date (initialState [])).sortState = ⟨.date, .asc⟩ :=
  (handleHeaderClick_sortState_spec utcHost (initialState []) .date).2.2 (by decide)

/-! ## The stages of `slugify` -/

theorem mem_lowerFrom (P : Platform) (before l : List Char) (c : Char)
    (h : c ∈ lowerFrom P before l) :
    ∃ (b : List Char) (x : Char) (a : List Char), x ∈ l ∧ c ∈ P.lowerAt b x a := by
  induction l generalizing before with
  | nil => simp [lowerFrom] at h
  | cons x rest ih =>
    rw [lowerFrom, List.mem_append] at h
    rcases h with h | h
    · exact ⟨before, x, rest, List.mem_cons_self x rest, h⟩
    · obtain ⟨b, y, a, hy, hc⟩ := ih _ h
      exact ⟨b, y, a, List.mem_cons_of_mem x hy, hc⟩

theorem mem_lowerChars_fixed (P : Platform) (l : List Char) (c : Char)
    (h : c ∈ lowerChars P l) : ∀ before after : List Char, P.lowerAt before c after = [c] := by
  obtain ⟨b, x, a, _, hc⟩ := mem_lowerFrom P [] l c h
  exact P.lowerAt_fixed b x a c hc

theorem lowerFrom_of_fixed (P : Platform) (before l : List Char)
    (h : ∀ c ∈ l, ∀ b a : List Char, P.lowerAt b c a = [c]) : lowerFrom P before l = l := by
  induction l generalizing before with
  | nil => rfl
  | cons x rest ih =>
    rw [lowerFrom, h x (List.mem_cons_self x rest),
      ih _ (fun c hc => h c (List.mem_cons_of_mem x hc))]
    rfl

theorem lowerChars_of_fixed (P : Platform) (l : List Char)
    (h : ∀ c ∈ l, ∀ b a : List Char, P.lowerAt b c a = [c]) : lowerChars P l = l :=
  lowerFrom_of_fixed P [] l h

theorem lowerAt_hyphen (P : Platform) (before after : List Char) :
    P.lowerAt before '-' after = ['-'] := by
  rw [P.lowerAt_ascii before '-' after (by decide)]
  rfl

theorem trimChars_sublist (l : List Char) : List.Sublist (trimChars l) l :=
  (( List.rdropWhile_prefix _ _).sublist).trans (List.dropWhile_suffix _).sublist

theorem stripHyphens_contiguous (l : List Char) : stripHyphens l <:+: l :=
  ( List.rdropWhile_prefix _ _).isInfix.trans (List.dropWhile_suffix _).isInfix

theorem dropEnds_of_clean (p : Char → Bool) (l : List Char) (h1 : ∀ c ∈ l.head?, p c = false)
    (h2 : ∀ c ∈ l.getLast?, p c = false) : (l.dropWhile p).rdropWhile p = l := by
  have e : l.dropWhile p = l := by
    cases l with
    | nil => rfl
    | cons a l =>
      have := h1 a (by simp)
      simp [List.dropWhile, this]
  rw [e, List.rdropWhile_eq_self_iff]
  intro hl
  have := h2 (l.getLast hl) (by simp [List.getLast?_eq_getLast l hl])
  simp [this]

theorem head?_dropEnds (p : Char → Bool) (l : List Char) :
    ∀ c ∈ ((l.dropWhile p).rdropWhile p).head?, p c = false := by
  intro c hc
  have hne : (l.dropWhile p).rdropWhile p ≠ [] := by
    intro e; rw [e] at hc; simp at hc
  have hne' : l.dropWhile p ≠ [] := by
    intro e; rw [e] at hne; simp at hne
  have h1 := ( List.rdropWhile_prefix p (l.dropWhile p)).head hne
  have h2 := List.head_dropWhile_not p l hne'
  rw [List.head?_eq_head hne] at hc
  simp only [Option.mem_def, Option.some.injEq] at hc
  rw [← hc, h1]
  exact h2

theorem getLast?_dropEnds (p : Char → Bool) (l : List Char) :
    ∀ c ∈ ((l.dropWhile p).rdropWhile p).getLast?, p c = false := by
  intro c hc
  have hne : (l.dropWhile p).rdropWhile p ≠ [] := by
    intro e; rw [e] at hc; simp at hc
  rw [List.getLast?_eq_getLast _ hne] at hc
  simp only [Option.mem_def, Option.some.injEq] at hc
  have := List.rdropWhile_last_not p (l.dropWhile p) hne
  rw [← hc]
  simpa using this

theorem mem_collapseRuns (p : Char → Bool) (r : Char) (l : List Char) :
    ∀ x ∈ collapseRuns p r l, x = r ∨ (x ∈ l ∧ p x = false) := by
  induction l using collapseRuns.induct p r with
  | case1 => intro x hx; simp [collapseRuns] at hx
  | case2 c hc =>
    intro x hx
    simp [collapseRuns, hc] at hx
    exact Or.inl hx
  | case3 c hc =>
    intro x hx
    simp [collapseRuns, hc] at hx
    subst hx
    exact Or.inr ⟨List.mem_singleton_self _, by simpa using hc⟩
  | case4 c d cs hc hd ih =>
    intro x hx
    rw [collapseRuns, if_pos hc, if_pos hd] at hx
    rcases ih x hx with h | ⟨h, h'⟩
    · exact Or.inl h
    · exact Or.inr ⟨List.mem_cons_of_mem _ h, h'⟩
  | case5 c d cs hc hd ih =>
    intro x hx
    rw [collapseRuns, if_pos hc, if_neg hd] at hx
    rcases List.mem_cons.1 hx with h | h
    · exact Or.inl h
    · rcases ih x h with h | ⟨h, h'⟩
      · exact Or.inl h
      · exact Or.inr ⟨List.mem_cons_of_mem _ h, h'⟩
  | case6 c d cs hc ih =>
    intro x hx
    rw [collapseRuns, if_neg hc] at hx
    rcases List.mem_cons.1 hx with h | h
    · exact Or.inr ⟨h ▸ List.mem_cons_self _ _, by simpa [h] using hc⟩
    · rcases ih x h with h | ⟨h, h'⟩
      · exact Or.inl h
      · exact Or.inr ⟨List.mem_cons_of_mem _ h, h'⟩

theorem collapseRuns_of_none (p : Char → Bool) (r : Char) (l : List Char)
    (h : ∀ c ∈ l, p c = false) : collapseRuns p r l = l := by
  induction l using collapseRuns.induct p r with
  | case1 => rfl
  | case2 c hc => simp [h c (List.mem_singleton_self c)] at hc
  | case3 c hc => simp [collapseRuns, hc]
  | case4 c d cs hc hd ih => simp [h c (List.mem_cons_self _ _)] at hc
  | case5 c d cs hc hd ih => simp [h c (List.mem_cons_self _ _)] at hc
  | case6 c d cs hc ih =>
    rw [collapseRuns, if_neg hc, ih (fun x hx => h x (List.mem_cons_of_mem _ hx))]

theorem head?_collapseRuns (p : Char → Bool) (r : Char) (d : Char) (cs : List Char)
    (hd : ¬ p d = true) : (collapseRuns p r (d :: cs)).head? = some d := by
  cases cs with
  | nil => simp [collapseRuns, hd]
  | cons e cs => rw [collapseRuns, if_neg hd]; rfl

theorem isHyphen_iff (c : Char) : isHyphen c = true ↔ c = '-' := by
  simp [isHyphen]

theorem chain_collapseRuns_hyphen (l : List Char) :
    List.Chain' NoDoubleHyphen (collapseRuns isHyphen '-' l) := by
  induction l using collapseRuns.induct isHyphen '-' with
  | case1 => simp [collapseRuns]
  | case2 c hc => simp [collapseRuns, hc]
  | case3 c hc => simp [collapseRuns, hc]
  | case4 c d cs hc hd ih => rw [collapseRuns, if_pos hc, if_pos hd]; exact ih
  | case5 c d cs hc hd ih =>
    rw [collapseRuns, if_pos hc, if_neg hd, List.chain'_cons']
    refine ⟨?_, ih⟩
    intro y hy
    rw [head?_collapseRuns _ _ _ _ hd] at hy
    simp only [Option.mem_def, Option.some.injEq] at hy
    subst hy
    intro h
    exact hd ((isHyphen_iff _).2 h.2)
  | case6 c d cs hc ih =>
    rw [collapseRuns, if_neg hc, List.chain'_cons']
    refine ⟨?_, ih⟩
    intro y _ h
    exact hc ((isHyphen_iff _).2 h.1)

theorem collapseRuns_hyphen_of_chain (l : List Char) (h : List.Chain' NoDoubleHyphen l) :
    collapseRuns isHyphen '-' l = l := by
  induction l using collapseRuns.induct isHyphen '-' with
  | case1 => rfl
  | case2 c hc => simp [collapseRuns, hc, (isHyphen_iff c).1 hc]
  | case3 c hc => simp [collapseRuns, hc]
  | case4 c d cs hc hd ih =>
    exfalso
    rw [List.chain'_cons] at h
    exact h.1 ⟨(isHyphen_iff c).1 hc, (isHyphen_iff d).1 hd⟩
  | case5 c d cs hc hd ih =>
    rw [collapseRuns, if_pos hc, if_neg hd, ih (List.Chain'.tail h), (isHyphen_iff c).1 hc]
  | case6 c d cs hc ih =>
    rw [collapseRuns, if_neg hc, ih (List.Chain'.tail h)]

/-- What every character of a slug satisfies: lower-casing leaves it as it is, it is
none of the deleted characters and it is no white space. -/
theorem slugifyChars_mem (P : Platform) (l : List Char) (c : Char)
    (hc : c ∈ slugifyChars P l) :
    (∀ before after : List Char, P.lowerAt before c after = [c]) ∧
    isStripped c = false ∧ isJsWhitespace c = false := by
  have h1 := (stripHyphens_contiguous _).subset hc
  rcases mem_collapseRuns _ _ _ c h1 with h | ⟨h2, -⟩
  · subst h
    exact ⟨lowerAt_hyphen P, by decide, by decide⟩
  · rcases mem_collapseRuns _ _ _ c h2 with h | ⟨h3, hws⟩
    · subst h
      exact ⟨lowerAt_hyphen P, by decide, by decide⟩
    · have h4 := List.mem_filter.1 h3
      refine ⟨mem_lowerChars_fixed P l c ((trimChars_sublist _).subset h4.1), ?_, hws⟩
      simpa using h4.2

theorem slugifyChars_chain (P : Platform) (l : List Char) :
    List.Chain' NoDoubleHyphen (slugifyChars P l) :=
   List.Chain'.infix (chain_collapseRuns_hyphen _) (stripHyphens_contiguous _)

theorem slugifyChars_head (P : Platform) (l : List Char) :
    ∀ c ∈ (slugifyChars P l).head?, isHyphen c = false :=
  head?_dropEnds isHyphen _

theorem slugifyChars_last (P : Platform) (l : List Char) :
    ∀ c ∈ (slugifyChars P l).getLast?, isHyphen c = false :=
  getLast?_dropEnds isHyphen _

theorem slugifyChars_idem (P : Platform) (l : List Char) :
    slugifyChars P (slugifyChars P l) = slugifyChars P l := by
  have hm := slugifyChars_mem P l
  have e1 : lowerChars P (slugifyChars P l) = slugifyChars P l :=
    lowerChars_of_fixed P _ (fun c hc => (hm c hc).1)
  have e2 : trimChars (slugifyChars P l) = slugifyChars P l :=
    dropEnds_of_clean _ _ (fun c hc => (hm c (List.mem_of_mem_head? hc)).2.2)
      (fun c hc => (hm c (List.mem_of_mem_getLast? hc)).2.2)
  have e3 : deleteChars isStripped (slugifyChars P l) = slugifyChars P l :=
    List.filter_eq_self.2 (fun c hc => by simp [(hm c hc).2.1])
  have e4 : collapseRuns isJsWhitespace '-' (slugifyChars P l) = slugifyChars P l :=
    collapseRuns_of_none _ _ _ (fun c hc => (hm c hc).2.2)
  have e5 : collapseRuns isHyphen '-' (slugifyChars P l) = slugifyChars P l :=
    collapseRuns_hyphen_of_chain _ (slugifyChars_chain P l)
  have e6 : stripHyphens (slugifyChars P l) = slugifyChars P l :=
    dropEnds_of_clean _ _ (slugifyChars_head P l) (slugifyChars_last P l)
  have unfold_once : ∀ m : List Char, slugifyChars P m = stripHyphens (collapseRuns isHyphen '-'
      (collapseRuns isJsWhitespace '-' (deleteChars isStripped (trimChars (lowerChars P m))))) :=
    fun _ => rfl
  rw [unfold_once (slugifyChars P l), e1, e2, e3, e4, e5, e6]

/-- C7: for every title, the empty one included, `slugify` returns a string that
`toLowerCase` leaves unchanged, that contains none of the characters `: / ? * " < > |`,
no white space and no two hyphens in a row, and that neither begins nor ends with a
hyphen; `slugify` is a total function, and it returns the empty string on the empty one.
On a host whose case table covers it, the title "ÀB C" gives "àb-c". -/
theorem slugify_shape (P : Platform) (title : String) :
    toLowerCase P (slugify P title) = slugify P title ∧
    (∀ c ∈ (slugify P title).data, c ∉ [':', '/', '?', '*', '"', '<', '>', '|']) ∧
    (∀ c ∈ (slugify P title).data, isJsWhitespace c = false) ∧
    (∀ c ∈ (slugify P title).data,
      c ≠ ' ' ∧ c ≠ '\t' ∧ c ≠ '\n' ∧ c ≠ '\r' ∧ c.toNat ≠ 0xA0 ∧ c.toNat ≠ 0x3000) ∧
    ¬ (['-', '-'] <:+: (slugify P title).data) ∧
    (slugify P title).data.head? ≠ some '-' ∧
    (slugify P title).data.getLast? ≠ some '-' ∧
    slugify P "" = "" ∧
    slugify utcHost "ÀB C" = "àb-c" := by
  refine ⟨?_, ?_, ?_, ?_, ?_, ?_, ?_, rfl, by decide⟩
  · show (⟨lowerChars P (slugifyChars P title.data)⟩ : String) = ⟨slugifyChars P title.data⟩
    rw [lowerChars_of_fixed P _ (fun c hc => (slugifyChars_mem P _ c hc).1)]
  · intro c hc hmem
    have h := (slugifyChars_mem P title.data c hc).2.1
    simp only [List.mem_cons, List.mem_singleton, List.not_mem_nil, or_false] at hmem
    rcases hmem with h' | h' | h' | h' | h' | h' | h' | h' <;> (subst h'; revert h; decide)
  · intro c hc
    exact (slugifyChars_mem P title.data c hc).2.2
  · intro c hc
    have h := (slugifyChars_mem P title.data c hc).2.2
    refine ⟨?_, ?_, ?_, ?_, ?_, ?_⟩
    · rintro rfl; revert h; decide
    · rintro rfl; revert h; decide
    · rintro rfl; revert h; decide
    · rintro rfl; revert h; decide
    · intro hn; simp [isJsWhitespace, hn] at h
    · intro hn; simp [isJsWhitespace, hn] at h
  · intro h
    have := List.Chain'.infix (slugifyChars_chain P title.data) h
    rw [List.chain'_pair] at this
    exact this ⟨rfl, rfl⟩
  · intro h
    have := slugifyChars_head P title.data '-' (by simpa using h)
    revert this; decide
  · intro h
    have := slugifyChars_last P title.data '-' (by simpa using h)
    revert this; decide

/-- C8: `slugify` is idempotent. -/
theorem slugify_idempotent (P : Platform) (x : String) :
    slugify P (slugify P x) = slugify P x := by
  show (⟨slugifyChars P (slugifyChars P x.data)⟩ : String) = ⟨slugifyChars P x.data⟩
  rw [slugifyChars_idem]

/-! ## The order produced by `applySort` on the date column -/

theorem sortInsert_pairwise {α β : Type} [LinearOrder β] (cmp : α → α → JSNum) (f : α → β)
    (a : α) (l : List α) (h : ∀ b ∈ l, ((cmp a b).isPositive = true ↔ f b < f a))
    (hl : l.Pairwise (fun x y => f x ≤ f y)) :
    (sortInsert cmp a l).Pairwise (fun x y => f x ≤ f y) := by
  induction l with
  | nil => simp [sortInsert]
  | cons b l ih =>
    rw [List.pairwise_cons] at hl
    unfold sortInsert
    split
    · rename_i hpos
      have hba : f b < f a := (h b (List.mem_cons_self b l)).1 hpos
      rw [List.pairwise_cons]
      refine ⟨?_, ih (fun x hx => h x (List.mem_cons_of_mem b hx)) hl.2⟩
      intro x hx
      rcases (mem_sortInsert cmp a x l).1 hx with rfl | hx
      · exact le_of_lt hba
      · exact hl.1 x hx
    · rename_i hpos
      have hab : f a ≤ f b := not_lt.1 (fun hlt => hpos ((h b (List.mem_cons_self b l)).2 hlt))
      rw [List.pairwise_cons]
      refine ⟨?_, List.pairwise_cons.2 hl⟩
      intro x hx
      rcases List.mem_cons.1 hx with rfl | hx
      · exact hab
      · exact le_trans hab (hl.1 x hx)

theorem jsSort_pairwise {α β : Type} [LinearOrder β] (cmp : α → α → JSNum) (f : α → β)
    (l : List α) (h : ∀ a ∈ l, ∀ b ∈ l, ((cmp a b).isPositive = true ↔ f b < f a)) :
    (jsSort cmp l).Pairwise (fun x y => f x ≤ f y) := by
  induction l with
  | nil => simp [jsSort]
  | cons a l ih =>
    refine sortInsert_pairwise cmp f a _ ?_ ?_
    · intro b hb
      exact h a (List.mem_cons_self a l) b
        (List.mem_cons_of_mem a ((jsSort_perm cmp l).mem_iff.1 hb))
    · exact ih (fun x hx y hy => h x (List.mem_cons_of_mem a hx) y (List.mem_cons_of_mem a hy))

theorem comparePapers_date_pos (P : Platform) (dir : Direction) (a b : Paper)
    (ha : truthy a.date = true → ∃ t, dateTime P a = .fin t)
    (hb : truthy b.date = true → ∃ t, dateTime P b = .fin t) :
    (comparePapers P .date dir a b).isPositive = true ↔ dateRank P dir b < dateRank P dir a := by
  unfold comparePapers dateValue dateRank
  by_cases h1 : truthy a.date = true <;> by_cases h2 : truthy b.date = true
  · obtain ⟨ta, hta⟩ := ha h1
    obtain ⟨tb, htb⟩ := hb h2
    unfold dateTime at hta htb
    simp only [h1, h2, if_true, hta, htb, dateTime]
    cases dir
    · simp [JSNum.sub, JSNum.mul, JSNum.isPositive, multiplier]
    · simp only [JSNum.sub, JSNum.mul, JSNum.isPositive, multiplier, decide_eq_true_eq,
        WithTop.coe_lt_coe]
      constructor <;> intro h <;> omega
  · obtain ⟨ta, hta⟩ := ha h1
    unfold dateTime at hta
    simp only [h1, h2, if_true, hta, dateTime]
    cases dir <;> simp [JSNum.sub, JSNum.mul, JSNum.isPositive, multiplier, fallback]
  · obtain ⟨tb, htb⟩ := hb h2
    unfold dateTime at htb
    simp only [h1, h2, if_true, htb, dateTime]
    cases dir
    · simp [JSNum.sub, JSNum.mul, JSNum.isPositive, multiplier, fallback]
    · simp only [JSNum.sub, JSNum.mul, JSNum.isPositive, multiplier, fallback, Bool.false_eq_true,
        if_false, WithTop.coe_lt_top, iff_true]
      decide
  · simp only [h1, h2]
    cases dir <;> simp [JSNum.sub, JSNum.mul, JSNum.isPositive, multiplier, fallback]

theorem dateRank_le_cases (P : Platform) (dir : Direction) (a b : Paper)
    (ha : truthy a.date = true → ∃ t, dateTime P a = .fin t)
    (hb : truthy b.date = true → ∃ t, dateTime P b = .fin t)
    (h : dateRank P dir a ≤ dateRank P dir b) :
    (truthy b.date = true → truthy a.date = true) ∧
    (truthy a.date = true → truthy b.date = true →
      ∃ ta tb, dateTime P a = .fin ta ∧ dateTime P b = .fin tb ∧
        (if dir = .asc then ta ≤ tb else tb ≤ ta)) := by
  constructor
  · intro h2
    by_contra h1
    obtain ⟨tb, htb⟩ := hb h2
    unfold dateRank at h
    rw [if_neg h1, if_pos h2, htb] at h
    cases dir <;> simp at h
  · intro h1 h2
    obtain ⟨ta, hta⟩ := ha h1
    obtain ⟨tb, htb⟩ := hb h2
    refine ⟨ta, tb, hta, htb, ?_⟩
    unfold dateRank at h
    rw [if_pos h1, if_pos h2, hta, htb] at h
    cases dir
    · simpa using h
    · simp only [WithTop.coe_le_coe] at h
      simp only [reduceCtorEq, if_false]
      omega

theorem truthy_iff (x : Option String) : truthy x = true ↔ ∃ d, x = some d ∧ d ≠ "" := by
  cases x with
  | none => simp [truthy]
  | some d => simp [truthy]

/-- C2: on a list whose dates, when present, are in `YYYY-MM-DD` form, and on a host whose
`Date.parse` gives a time value for such dates, `applySort` with the key "date" permutes
the view so that every document with a date stands before every document whose date is
missing or empty, and so that the time values of the dated documents do not decrease in
the ascending direction and do not increase in the descending one. -/
theorem applySort_date_spec (P : Platform) (s : State) (dir : Direction) (u : Bool)
    (hP : ∀ d : String, isISODate d = true → ∃ t, P.dateParse (d ++ "T00:00:00") = .fin t)
    (hd : ∀ p ∈ s.filtered, ∀ d, p.date = some d → d ≠ "" → isISODate d = true) :
    List.Perm (applySort P .date dir u s).filtered s.filtered ∧
    List.Pairwise (fun a b => truthy b.date = true → truthy a.date = true)
      (applySort P .date dir u s).filtered ∧
    List.Pairwise (fun a b => truthy a.date = true → truthy b.date = true →
        ∃ ta tb, dateTime P a = .fin ta ∧ dateTime P b = .fin tb ∧
          (if dir = .asc then ta ≤ tb else tb ≤ ta))
      (applySort P .date dir u s).filtered := by
  have hfin : ∀ p ∈ s.filtered, truthy p.date = true → ∃ t, dateTime P p = .fin t := by
    intro p hp ht
    obtain ⟨d, hd1, hd2⟩ := (truthy_iff _).1 ht
    obtain ⟨t, ht'⟩ := hP d (hd p hp d hd1 hd2)
    exact ⟨t, by simp [dateTime, hd1, orEmpty, ht']⟩
  have hperm := jsSort_perm (comparePapers P .date dir) s.filtered
  have hsorted := jsSort_pairwise (comparePapers P .date dir) (dateRank P dir) s.filtered
    (fun a ha b hb => comparePapers_date_pos P dir a b (hfin a ha) (hfin b hb))
  have hmem : ∀ p ∈ jsSort (comparePapers P .date dir) s.filtered,
      truthy p.date = true → ∃ t, dateTime P p = .fin t :=
    fun p hp => hfin p (hperm.mem_iff.1 hp)
  refine ⟨hperm, ?_, ?_⟩
  · show List.Pairwise _ (jsSort (comparePapers P .date dir) s.filtered)
    refine List.Pairwise.imp_of_mem ?_ hsorted
    intro a b ha hb h
    exact (dateRank_le_cases P dir a b (hmem a ha) (hmem b hb) h).1
  · show List.Pairwise _ (jsSort (comparePapers P .date dir) s.filtered)
    refine List.Pairwise.imp_of_mem ?_ hsorted
    intro a b ha hb h
    exact (dateRank_le_cases P dir a b (hmem a ha) (hmem b hb) h).2

theorem parseYMD_length (l : List Char) (x : Nat × Nat × Nat) (h : parseYMD l = some x) :
    l.length = 10 := by
  unfold parseYMD at h
  split at h
  · rfl
  · cases h

theorem utcHost_dateParse (d : String) (h : isISODate d = true) :
    ∃ t, utcHost.dateParse (d ++ "T00:00:00") = .fin t := by
  unfold isISODate at h
  obtain ⟨⟨y, m, dd⟩, hx⟩ := Option.isSome_iff_exists.1 h
  have hlen := parseYMD_length _ _ hx
  have e1 : (d ++ "T00:00:00").data.take 10 = d.data := by
    rw [String.data_append, List.take_append_of_le_length (le_of_eq hlen.symm), ← hlen,
      List.take_length]
  have e2 : (d ++ "T00:00:00").data.drop 10 = "T00:00:00".data := by
    rw [String.data_append, ← hlen, List.drop_left]
  refine ⟨daysFromCivil y m dd * 86400000, ?_⟩
  show utcDateParse (d ++ "T00:00:00") = _
  unfold utcDateParse
  rw [e1, e2, hx]
  rfl

/-- Witness of C2 on the scenario: the view B, A, C sorted by date gives A, B, C in the
ascending direction and B, A, C in the descending one. -/
theorem applySort_date_spec_witness :
    (List.Perm (applySort utcHost .date .asc true
        { initialState [] with papers := scenario, filtered := scenario }).filtered scenario ∧
      List.Pairwise (fun a b => truthy b.date = true → truthy a.date = true)
        (applySort utcHost .date .asc true
          { initialState [] with papers := scenario, filtered := scenario }).filtered ∧
      List.Pairwise (fun a b => truthy a.date = true → truthy b.date = true →
          ∃ ta tb, dateTime utcHost a = .fin ta ∧ dateTime utcHost b = .fin tb ∧
            (if Direction.asc = .asc then ta ≤ tb else tb ≤ ta))
        (applySort utcHost .date .asc true
          { initialState [] with papers := scenario, filtered := scenario }).filtered) ∧
    (applySort utcHost .date .asc true
        { initialState [] with papers := scenario, filtered := scenario }).filtered
      = [paperA, paperB, paperC] ∧
    (applySort utcHost .date .desc true
        { initialState [] with papers := scenario, filtered := scenario }).filtered
      = [paperB, paperA, paperC] :=
  ⟨applySort_date_spec utcHost { initialState [] with papers := scenario, filtered := scenario }
      .asc true utcHost_dateParse
      (by
        intro p hp d hpd _
        simp only [initialState, scenario, List.mem_cons, List.mem_singleton,
          List.not_mem_nil, or_false] at hp
        rcases hp with rfl | rfl | rfl
        · cases hpd; decide
        · cases hpd; decide
        · cases hpd),
    by decide, by decide⟩

/-! ## The view over a session -/

theorem specView_perm (P : Platform) (papers : List Paper) (q : String) (st : SortState) :
    List.Perm (specView P papers q st) (filterPapers P papers q) :=
  jsSort_perm _ _

theorem lastInput_append (es : List Event) (e : Event) :
    lastInput (es ++ [e])
      = (match e with
        | .input value => some value
        | .click _ => lastInput es) := by
  unfold lastInput
  rw [List.foldl_append]
  cases e <;> rfl

/-- After a load, the view is a permutation of the full set filtered by the text of the
last search event since the load, and of the whole full set when there was none. -/
theorem run_view_perm (P : Platform) (c : List Paper) (s0 : State) (es : List Event) :
    List.Perm (run P (loadPapers P (.ok c) s0) es).filtered
      (match lastInput es with
        | some q => filterPapers P c q
        | none => c) := by
  induction es using List.reverseRecOn with
  | nil => exact jsSort_perm _ c
  | append_singleton es e ih =>
    rw [run_append, lastInput_append]
    cases e with
    | input q =>
      show List.Perm (specView P (run P (loadPapers P (.ok c) s0) es).papers q _) _
      rw [run_papers]
      exact specView_perm P c q _
    | click k => exact (jsSort_perm _ _).trans ih

theorem step_subperm (P : Platform) (s : State) (e : Event)
    (h : List.Subperm s.filtered s.papers) :
    List.Subperm (step P s e).filtered (step P s e).papers := by
  cases e with
  | input q =>
    exact (jsSort_perm _ _).subperm.trans (List.filter_sublist _).subperm
  | click k => exact (jsSort_perm _ _).subperm.trans h

theorem run_subperm (P : Platform) (s : State) (es : List Event)
    (h : List.Subperm s.filtered s.papers) :
    List.Subperm (run P s es).filtered (run P s es).papers := by
  induction es generalizing s with
  | nil => exact h
  | cons e es ih => exact ih (step P s e) (step_subperm P s e h)

/-- C4, as stated, fails: after a click on a header the view need not be the full set
filtered by the query and then sorted by the sort state.  Two documents without a date,
loaded in the order B, A, are shown as A, B; a click on the date header leaves them so,
while filtering and sorting the full set gives B, A. -/
theorem view_not_rebuilt_on_click :
    ¬ (∀ (P : Platform) (c : List Paper) (hdrs : List Header) (es : List Event),
        (run P (loadPapers P (.ok c) (initialState hdrs)) es).filtered
          = specView P (run P (loadPapers P (.ok c) (initialState hdrs)) es).papers
              (run P (loadPapers P (.ok c) (initialState hdrs)) es).searchInput
              (run P (loadPapers P (.ok c) (initialState hdrs)) es).sortState) := by
  intro h
  have h' := h utcHost [⟨"B", none, none, none, none⟩, ⟨"A", none, none, none, none⟩] []
    [.click .date]
  revert h'
  decide

/-- C4, amended: whatever the state in which the request settles, a successful load sets
the view to the whole full set sorted by the current sort state, without reading the
search box; in every state reached from there by search events and header clicks,
`papers` is the loaded collection, a search event sets the view to the full set filtered
by the query and then sorted by the sort state, which it leaves as it is, a click on a
header sorts the view it finds under the new sort state, and the view is a permutation of
the full set filtered by the last query since the load (of the whole full set when there
was none). -/
theorem view_derivation (P : Platform) (c : List Paper) (s0 : State) (es : List Event) :
    (run P (loadPapers P (.ok c) s0) es).papers = c ∧
    (loadPapers P (.ok c) s0).filtered = specView P c "" s0.sortState ∧
    (∀ q : String,
      (step P (run P (loadPapers P (.ok c) s0) es) (.input q)).filtered
        = specView P c q (run P (loadPapers P (.ok c) s0) es).sortState ∧
      (step P (run P (loadPapers P (.ok c) s0) es) (.input q)).sortState
        = (run P (loadPapers P (.ok c) s0) es).sortState) ∧
    (∀ k : SortKey,
      (step P (run P (loadPapers P (.ok c) s0) es) (.click k)).filtered
        = jsSort (comparePapers P k
            (nextDirection (run P (loadPapers P (.ok c) s0) es).sortState k))
          (run P (loadPapers P (.ok c) s0) es).filtered) ∧
    List.Perm (run P (loadPapers P (.ok c) s0) es).filtered
      (match lastInput es with
        | some q => filterPapers P c q
        | none => c) := by
  have hp : (run P (loadPapers P (.ok c) s0) es).papers = c := by
    rw [run_papers]; rfl
  refine ⟨hp, ?_, ?_, ?_, run_view_perm P c s0 es⟩
  · show jsSort (comparePapers P s0.sortState.key s0.sortState.direction) c
      = specView P c "" s0.sortState
    simp [specView, filterPapers_empty]
  · intro q
    refine ⟨?_, rfl⟩
    show specView P _ q _ = _
    rw [hp]
  · intro k
    rfl

/-- C5: in every state reached from a successful load by search events and header
clicks, every document of the view is a document of `papers`, and no document occurs in
the view more often than in `papers`. -/
theorem view_within_papers (P : Platform) (c : List Paper) (s0 : State) (es : List Event) :
    (∀ D ∈ (run P (loadPapers P (.ok c) s0) es).filtered,
      D ∈ (run P (loadPapers P (.ok c) s0) es).papers) ∧
    (∀ D : Paper, List.count D (run P (loadPapers P (.ok c) s0) es).filtered
      ≤ List.count D (run P (loadPapers P (.ok c) s0) es).papers) ∧
    List.Subperm (run P (loadPapers P (.ok c) s0) es).filtered
      (run P (loadPapers P (.ok c) s0) es).papers := by
  have h0 : List.Subperm (loadPapers P (.ok c) s0).filtered (loadPapers P (.ok c) s0).papers :=
    (jsSort_perm _ c).subperm
  have h := run_subperm P _ es h0
  exact ⟨fun D hD => h.subset hD, fun D => h.count_le D, h⟩

/-! ## Sort state, full set and header indicators over a session -/

@[simp] theorem applySort_headers_false (P : Platform) (k : SortKey) (d : Direction)
    (s : State) : (applySort P k d false s).headers = s.headers := rfl

@[simp] theorem applySort_tableBody (P : Platform) (k : SortKey) (d : Direction) (u : Bool)
    (s : State) :
    (applySort P k d u s).tableBody = renderRows P (jsSort (comparePapers P k d) s.filtered) :=
  rfl

theorem loadPapers_sortState (P : Platform) (r : FetchResult) (s : State) :
    (loadPapers P r s).sortState = s.sortState := by
  cases r <;> rfl

/-- C11: the sort state starts as title ascending; `applySearch`, and so every search
event, leaves the sort state and the `aria-sort` attributes of the headers as they are;
`loadPapers` leaves the sort state as it is too, so that only `handleHeaderClick` changes
it. -/
theorem search_keeps_sortState (P : Platform) (s : State) (q : String) (hdrs : List Header)
    (r : FetchResult) :
    (initialState hdrs).sortState = ⟨.title, .asc⟩ ∧
    (applySearch P s).sortState = s.sortState ∧
    (applySearch P s).headers = s.headers ∧
    (step P s (.input q)).sortState = s.sortState ∧
    (step P s (.input q)).headers = s.headers ∧
    (loadPapers P r s).sortState = s.sortState :=
  ⟨rfl, rfl, rfl, rfl, rfl, loadPapers_sortState P r s⟩

/-- C12: in every state reached from a successful load of the collection `c` by search
events and header clicks, `papers` is `c`, the same documents in the same order; no
single event changes `papers`. -/
theorem papers_unchanged (P : Platform) (c : List Paper) (s0 : State) (es : List Event)
    (s : State) (e : Event) :
    (run P (loadPapers P (.ok c) s0) es).papers = c ∧
    (step P s e).papers = s.papers := by
  refine ⟨?_, step_papers P s e⟩
  rw [run_papers]
  rfl

theorem applySort_headers_synced (P : Platform) (k : SortKey) (d : Direction) (s : State) :
    ∀ h ∈ (applySort P k d true s).headers, h.ariaSort = some (ariaValue k d h.key) := by
  intro h hh
  have hh' : h ∈ s.headers.map
      (fun header : Header => { header with ariaSort := some (ariaValue k d header.key) }) := hh
  obtain ⟨h0, _, rfl⟩ := List.mem_map.1 hh'
  rfl

theorem step_headers_synced (P : Platform) (s : State) (e : Event)
    (hs : ∀ h ∈ s.headers,
      h.ariaSort = some (ariaValue s.sortState.key s.sortState.direction h.key)) :
    ∀ h ∈ (step P s e).headers,
      h.ariaSort
        = some (ariaValue (step P s e).sortState.key (step P s e).sortState.direction h.key) := by
  cases e with
  | input q => exact hs
  | click k => exact applySort_headers_synced P k _ s

theorem run_headers_synced (P : Platform) (s : State) (es : List Event)
    (hs : ∀ h ∈ s.headers,
      h.ariaSort = some (ariaValue s.sortState.key s.sortState.direction h.key)) :
    ∀ h ∈ (run P s es).headers,
      h.ariaSort
        = some (ariaValue (run P s es).sortState.key (run P s es).sortState.direction h.key) := by
  induction es generalizing s with
  | nil => exact hs
  | cons e es ih => exact ih (step P s e) (step_headers_synced P s e hs)

/-- C13: in every state reached from a successful load by search events and header
clicks, the header whose key is the current sort key has `aria-sort` "ascending" when the
direction is ascending and "descending" when it is descending, and every other header
has `aria-sort` "none". -/
theorem headers_synced (P : Platform) (c : List Paper) (s0 : State) (es : List Event) :
    ∀ h ∈ (run P (loadPapers P (.ok c) s0) es).headers,
      h.ariaSort = some
        (if h.key = (run P (loadPapers P (.ok c) s0) es).sortState.key then
          (if (run P (loadPapers P (.ok c) s0) es).sortState.direction = .asc then "ascending"
            else "descending")
        else "none") :=
  run_headers_synced P _ es (applySort_headers_synced P _ _ _)

/-- Witness of C13: after the load of the scenario and a click on the date header, the
date header has `aria-sort` "ascending". -/
theorem headers_synced_witness :
    (⟨.date, some "ascending"⟩ : Header)
        ∈ (run utcHost (loadPapers utcHost (.ok scenario)
            (initialState [⟨.title, none⟩, ⟨.date, none⟩])) [.click .date]).headers ∧
    (⟨.date, some "ascending"⟩ : Header).ariaSort = some
      (if (⟨.date, some "ascending"⟩ : Header).key
          = (run utcHost (loadPapers utcHost (.ok scenario)
              (initialState [⟨.title, none⟩, ⟨.date, none⟩])) [.click .date]).sortState.key then
        (if (run utcHost (loadPapers utcHost (.ok scenario)
              (initialState [⟨.title, none⟩, ⟨.date, none⟩])) [.click .date]).sortState.direction
            = .asc then "ascending"
          else "descending")
      else "none") :=
  ⟨by decide,
    headers_synced utcHost scenario (initialState [⟨.title, none⟩, ⟨.date, none⟩])
      [.click .date] ⟨.date, some "ascending"⟩ (by decide)⟩

/-! ## A failed load -/

theorem step_empty (P : Platform) (s : State) (e : Event) (h1 : s.papers = [])
    (h2 : s.filtered = []) :
    (step P s e).papers = [] ∧ (step P s e).filtered = [] ∧
    (step P s e).tableBody = [Row.status noMatchText] := by
  cases e with
  | input q =>
    have e1 : (step P s (.input q)).filtered = [] := by
      show jsSort _ (filterPapers P s.papers q) = []
      rw [h1]; rfl
    refine ⟨h1, e1, ?_⟩
    show renderRows P (step P s (.input q)).filtered = _
    rw [e1]; rfl
  | click k =>
    have e1 : (step P s (.click k)).filtered = [] := by
      show jsSort _ s.filtered = []
      rw [h2]; rfl
    refine ⟨h1, e1, ?_⟩
    show renderRows P (step P s (.click k)).filtered = _
    rw [e1]; rfl

theorem run_empty (P : Platform) (s : State) (es : List Event) (h1 : s.papers = [])
    (h2 : s.filtered = []) :
    (run P s es).papers = [] ∧ (run P s es).filtered = [] := by
  induction es generalizing s with
  | nil => exact ⟨h1, h2⟩
  | cons e es ih =>
    have h := step_empty P s e h1 h2
    exact ih (step P s e) h.1 h.2.1

/-- C15: whether the fetch is rejected, the response is not `ok` or the body does not
parse, `loadPapers` ends in the same state: the table body is the single row with the
text "Failed to load papers. Check that papers.json is present.", and the full set and
the view are empty, whatever events came before the request settled. -/
theorem loadPapers_failure (P : Platform) (hdrs : List Header) (pre : List Event) :
    loadPapers P .rejected (run P (initialState hdrs) pre)
      = loadPapers P .notOk (run P (initialState hdrs) pre) ∧
    loadPapers P .notOk (run P (initialState hdrs) pre)
      = loadPapers P .badJson (run P (initialState hdrs) pre) ∧
    (loadPapers P .rejected (run P (initialState hdrs) pre)).tableBody
      = [Row.status "Failed to load papers. Check that papers.json is present."] ∧
    (loadPapers P .rejected (run P (initialState hdrs) pre)).papers = [] ∧
    (loadPapers P .rejected (run P (initialState hdrs) pre)).filtered = [] := by
  have h := run_empty P (initialState hdrs) pre rfl rfl
  exact ⟨rfl, rfl, rfl, h.1, h.2⟩

/-- C16, as stated, fails: after a failed load, one search event replaces the row
"Failed to load papers. Check that papers.json is present." by the row
"No papers match your search.". -/
theorem loadFailed_row_replaced :
    ¬ (∀ (P : Platform) (hdrs : List Header) (es : List Event),
        (run P (loadPapers P .rejected (initialState hdrs)) es).tableBody
          = [Row.status "Failed to load papers. Check that papers.json is present."]) := by
  intro h
  have h' := h utcHost [] [.input "x"]
  revert h'
  decide

/-- C16, amended: after a failed load the full set and the view stay empty under every
sequence of search events and header clicks, so no document row is ever shown; the table
body is the load-failure row until the first event, and the row "No papers match your
search." after every event. -/
theorem loadFailed_session (P : Platform) (hdrs : List Header) (r : FetchResult)
    (es : List Event) (e : Event) (hr : ∀ c, r ≠ .ok c) :
    (loadPapers P r (initialState hdrs)).tableBody
      = [Row.status "Failed to load papers. Check that papers.json is present."] ∧
    (run P (loadPapers P r (initialState hdrs)) es).papers = [] ∧
    (run P (loadPapers P r (initialState hdrs)) es).filtered = [] ∧
    (run P (loadPapers P r (initialState hdrs)) (es ++ [e])).tableBody
      = [Row.status "No papers match your search."] := by
  have hl : loadPapers P r (initialState hdrs)
      = { initialState hdrs with tableBody := [Row.status loadFailedText] } := by
    cases r with
    | ok c => exact absurd rfl (hr c)
    | rejected => rfl
    | notOk => rfl
    | badJson => rfl
  have h := run_empty P (loadPapers P r (initialState hdrs)) es (by rw [hl]; rfl) (by rw [hl]; rfl)
  refine ⟨by rw [hl]; rfl, h.1, h.2, ?_⟩
  rw [run_append]
  exact (step_empty P _ e h.1 h.2).2.2

/-- Witness of C16: a rejected fetch, then a click on the date header and a search. -/
theorem loadFailed_session_witness :
    (loadPapers utcHost .rejected (initialState [])).tableBody
      = [Row.status "Failed to load papers. Check that papers.json is present."] ∧
    (run utcHost (loadPapers utcHost .rejected (initialState [])) [.click .date]).papers = [] ∧
    (run utcHost (loadPapers utcHost .rejected (initialState [])) [.click .date]).filtered = [] ∧
    (run utcHost (loadPapers utcHost .rejected (initialState []))
        ([.click .date] ++ [.input "a"])).tableBody
      = [Row.status "No papers match your search."] :=
  loadFailed_session utcHost [] .rejected [.click .date] (.input "a") (fun _ h => by cases h)

/-! ## The rows `renderRows` builds -/

theorem htmlRun_text (sup e : Bool) (tn : List Char) (ats : List (List Char × List Char))
    (ha : Bool) (an av : List Char) (cells : List (List Char)) (hrefs : List (List Char))
    (x t : List Char) (hx : ∀ c ∈ x, c ≠ '<' ∧ c ≠ '&') :
    x.foldl htmlStep ⟨.data, sup, e, tn, ats, ha, an, av, cells, some t, hrefs⟩
      = ⟨.data, sup, e, tn, ats, ha, an, av, cells, some (x.reverse ++ t), hrefs⟩ := by
  induction x generalizing t with
  | nil => rfl
  | cons c x ih =>
    have hc := hx c (List.mem_cons_self c x)
    have hstep : htmlStep ⟨.data, sup, e, tn, ats, ha, an, av, cells, some t, hrefs⟩ c
        = ⟨.data, sup, e, tn, ats, ha, an, av, cells, some (c :: t), hrefs⟩ := by
      simp [htmlStep, stepIn, dataStep, emitChar, hc.1, hc.2]
    rw [List.foldl_cons, hstep, ih _ (fun d hd => hx d (List.mem_cons_of_mem c hd))]
    simp

theorem htmlRun_attr (sup e : Bool) (tn : List Char) (ats : List (List Char × List Char))
    (ha : Bool) (an : List Char) (cells : List (List Char)) (cell : Option (List Char))
    (hrefs : List (List Char)) (x av : List Char) (hx : ∀ c ∈ x, c ≠ '"' ∧ c ≠ '&') :
    x.foldl htmlStep ⟨.attrValueDouble, sup, e, tn, ats, ha, an, av, cells, cell, hrefs⟩
      = ⟨.attrValueDouble, sup, e, tn, ats, ha, an, x.reverse ++ av, cells, cell, hrefs⟩ := by
  induction x generalizing av with
  | nil => rfl
  | cons c x ih =>
    have hc := hx c (List.mem_cons_self c x)
    have hstep : htmlStep ⟨.attrValueDouble, sup, e, tn, ats, ha, an, av, cells, cell, hrefs⟩ c
        = ⟨.attrValueDouble, sup, e, tn, ats, ha, an, c :: av, cells, cell, hrefs⟩ := by
      simp [htmlStep, stepIn, pushAttrValue, hc.1, hc.2]
    rw [List.foldl_cons, hstep, ih _ (fun d hd => hx d (List.mem_cons_of_mem c hd))]
    simp

theorem htmlRun_firstCell :
    "\n      <td>".data.foldl htmlStep htmlStart
      = ⟨.data, true, false, [], [], false, [], [], [], some [], []⟩ := by
  rfl

theorem htmlRun_nextCell (cells : List (List Char)) (hrefs : List (List Char)) (t : List Char) :
    "</td>\n      <td>".data.foldl htmlStep
        ⟨.data, true, false, [], [], false, [], [], cells, some t, hrefs⟩
      = ⟨.data, true, false, [], [], false, [], [], cells ++ [t.reverse], some [], hrefs⟩ := by
  rfl

theorem htmlRun_actions (cells : List (List Char)) (hrefs : List (List Char)) (t : List Char) :
    "</td>\n      <td>\n        <div class=\"actions\">\n          <a class=\"button primary\" href=\"".data.foldl
        htmlStep ⟨.data, true, false, [], [], false, [], [], cells, some t, hrefs⟩
      = ⟨.attrValueDouble, true, false, "a".data, [("class".data, "button primary".data)], true,
          "href".data.reverse, [], cells ++ [t.reverse],
          some "\n        \n          ".data.reverse, hrefs⟩ := by
  rfl

theorem htmlRun_viewLink (cells : List (List Char)) (hrefs : List (List Char))
    (t av : List Char) :
    "\" target=\"_blank\" rel=\"noopener\">View</a>\n          <a class=\"button\" href=\"".data.foldl
        htmlStep ⟨.attrValueDouble, true, false, "a".data,
          [("class".data, "button primary".data)], true, "href".data.reverse, av, cells, some t,
          hrefs⟩
      = ⟨.attrValueDouble, true, false, "a".data, [("class".data, "button".data)], true,
          "href".data.reverse, [], cells, some ("View\n          ".data.reverse ++ t),
          hrefs ++ [av.reverse]⟩ := by
  rfl

theorem htmlRun_downloadLink (cells : List (List Char)) (hrefs : List (List Char))
    (t av : List Char) :
    "\" download>Download</a>\n        </div>\n      </td>\n    ".data.foldl
        htmlStep ⟨.attrValueDouble, true, false, "a".data,
          [("class".data, "button".data)], true, "href".data.reverse, av, cells, some t, hrefs⟩
      = ⟨.data, true, false, [], [], false, [], [],
          cells ++ [("Download\n        \n      ".data.reverse ++ t).reverse], none,
          hrefs ++ [av.reverse]⟩ := by
  rfl

/-- What the parser reads of the row template when the interpolated values hold no
character that means markup. -/
theorem readRow_rowTemplate (t a p d path : String) (ht : PlainText t) (ha : PlainText a)
    (hp : PlainText p) (hd : PlainText d) (hpath : PlainAttr path) :
    readRow (rowTemplate t a p d path)
      = some ⟨[t, a, p, d, "\n        \n          View\n          Download\n        \n      "],
          [path, path]⟩ := by
  unfold readRow rowTemplate
  simp only [String.data_append, List.foldl_append]
  rw [htmlRun_firstCell, htmlRun_text _ _ _ _ _ _ _ _ _ _ _ ht, htmlRun_nextCell,
    htmlRun_text _ _ _ _ _ _ _ _ _ _ _ ha, htmlRun_nextCell,
    htmlRun_text _ _ _ _ _ _ _ _ _ _ _ hp, htmlRun_nextCell,
    htmlRun_text _ _ _ _ _ _ _ _ _ _ _ hd, htmlRun_actions,
    htmlRun_attr _ _ _ _ _ _ _ _ _ _ _ hpath, htmlRun_viewLink,
    htmlRun_attr _ _ _ _ _ _ _ _ _ _ _ hpath, htmlRun_downloadLink]
  simp

theorem rowMarkup_eq (P : Platform) (paper : Paper) :
    rowMarkup P paper
      = rowTemplate paper.title (", ".intercalate (paper.authors.getD []))
          (", ".intercalate (paper.presenters.getD [])) (dateLabel P paper)
          (getPdfPath P paper) := by
  obtain ⟨t, a, pr, d, pdf⟩ := paper
  cases a <;> cases pr <;> simp [rowMarkup, join_eq_intercalate, String.intercalate]

set_option maxRecDepth 100000 in
/-- C17, as stated, fails: the strings are put into the markup as they are and the HTML
parser reads them.  For a document with the authors `<i>A</i>` and `B` and the path
`a"b.pdf`, the cell of the authors reads `A, B` and both links have the `href` `a`. -/
theorem row_values_not_escaped :
    ¬ (∀ (P : Platform) (paper : Paper), ∃ v : RowView,
        readRow (rowMarkup P paper) = some v ∧
        v.hrefs = [getPdfPath P paper, getPdfPath P paper] ∧
        v.cells.take 4 = [paper.title, ", ".intercalate (paper.authors.getD []),
          ", ".intercalate (paper.presenters.getD []), dateLabel P paper]) := by
  intro h
  obtain ⟨v, hv, hh, hc⟩ :=
    h utcHost ⟨"T", some ["<i>A</i>", "B"], none, none, some "a\"b.pdf"⟩
  have e : readRow (rowMarkup utcHost ⟨"T", some ["<i>A</i>", "B"], none, none, some "a\"b.pdf"⟩)
      = some ⟨["T", "A, B", "", "-",
          "\n        \n          View\n          Download\n        \n      "], ["a", "a"]⟩ := by
    decide
  rw [e] at hv
  injection hv with hv
  subst hv
  revert hh
  decide

/-- C17, amended: `renderRows` gives the whole new table body as a function of its
argument: for the empty list the single row "No papers match your search."; for a
non-empty list one row per document, in the same order, whose markup is the row template
with the title, the authors joined by ", ", the presenters joined by ", " (empty when the
field is absent), the date label ("-" when the document has no date) and the path of
`getPdfPath` put in as they are.  When the title, the joined authors, the joined
presenters and the date label hold neither `<` nor `&` and the path holds neither `"` nor
`&`, the first four cells read these strings and both links have the path as `href`.
`applySort` writes this body whatever the table body was before. -/
theorem renderRows_spec (P : Platform) (paper : Paper) (rest : List Paper)
    (ht : PlainText paper.title)
    (ha : PlainText (", ".intercalate (paper.authors.getD [])))
    (hp : PlainText (", ".intercalate (paper.presenters.getD [])))
    (hd : PlainText (dateLabel P paper))
    (hpath : PlainAttr (getPdfPath P paper)) :
    renderRows P [] = [Row.status "No papers match your search."] ∧
    renderRows P (paper :: rest) = Row.paper (rowMarkup P paper) :: rest.map (renderRow P) ∧
    (renderRows P (paper :: rest)).length = (paper :: rest).length ∧
    rowMarkup P paper
      = rowTemplate paper.title (", ".intercalate (paper.authors.getD []))
          (", ".intercalate (paper.presenters.getD [])) (dateLabel P paper)
          (getPdfPath P paper) ∧
    readRow (rowMarkup P paper)
      = some ⟨[paper.title, ", ".intercalate (paper.authors.getD []),
            ", ".intercalate (paper.presenters.getD []), dateLabel P paper,
            "\n        \n          View\n          Download\n        \n      "],
          [getPdfPath P paper, getPdfPath P paper]⟩ ∧
    (paper.date = none ∨ paper.date = some "" → dateLabel P paper = "-") ∧
    (∀ d : String, paper.date = some d → d ≠ "" →
      dateLabel P paper = P.toLocaleDateString (d ++ "T00:00:00")) ∧
    (∀ (s : State) (k : SortKey) (d : Direction) (u : Bool) (body : List Row),
      (applySort P k d u { s with tableBody := body }).tableBody
        = renderRows P (applySort P k d u s).filtered) := by
  refine ⟨rfl, rfl, by simp [renderRows], rowMarkup_eq P paper, ?_, ?_, ?_, ?_⟩
  · rw [rowMarkup_eq]
    exact readRow_rowTemplate _ _ _ _ _ ht ha hp hd hpath
  · intro h
    rcases h with h | h <;> simp [dateLabel, h, orEmpty]
  · intro d hd1 hd2
    simp [dateLabel, hd1, orEmpty, hd2]
  · intro s k d u body
    rfl

set_option maxRecDepth 100000 in
/-- Witness of C17: the rows of A Paper and C Paper on the reference host. -/
theorem renderRows_spec_witness :
    renderRows utcHost [] = [Row.status "No papers match your search."] ∧
    renderRows utcHost (paperA :: [paperC])
      = Row.paper (rowMarkup utcHost paperA) :: [paperC].map (renderRow utcHost) ∧
    (renderRows utcHost (paperA :: [paperC])).length = (paperA :: [paperC]).length ∧
    rowMarkup utcHost paperA
      = rowTemplate paperA.title (", ".intercalate (paperA.authors.getD []))
          (", ".intercalate (paperA.presenters.getD [])) (dateLabel utcHost paperA)
          (getPdfPath utcHost paperA) ∧
    readRow (rowMarkup utcHost paperA)
      = some ⟨[paperA.title, ", ".intercalate (paperA.authors.getD []),
            ", ".intercalate (paperA.presenters.getD []), dateLabel utcHost paperA,
            "\n        \n          View\n          Download\n        \n      "],
          [getPdfPath utcHost paperA, getPdfPath utcHost paperA]⟩ ∧
    (paperA.date = none ∨ paperA.date = some "" → dateLabel utcHost paperA = "-") ∧
    (∀ d : String, paperA.date = some d → d ≠ "" →
      dateLabel utcHost paperA = utcHost.toLocaleDateString (d ++ "T00:00:00")) ∧
    (∀ (s : State) (k : SortKey) (d : Direction) (u : Bool) (body : List Row),
      (applySort utcHost k d u { s with tableBody := body }).tableBody
        = renderRows utcHost (applySort utcHost k d u s).filtered) :=
  renderRows_spec utcHost paperA [paperC]
    (by unfold PlainText; decide) (by unfold PlainText; decide) (by unfold PlainText; decide)
    (by unfold PlainText; decide) (by unfold PlainAttr; decide)

/-! ## The view is a permutation of the matching documents -/

/-- C19, as stated, fails: a query typed while the request is pending is the most recent
query after the load, and the load shows every document.  With "c" typed before the
scenario is loaded, the view has three documents and one of them matches. -/
theorem view_ignores_pending_query :
    ¬ (∀ (P : Platform) (c : List Paper) (hdrs : List Header) (pre post : List Event),
        List.Perm
          (run P (loadPapers P (.ok c) (run P (initialState hdrs) pre)) post).filtered
          (filterPapers P c ((lastInput (pre ++ post)).getD ""))) := by
  intro h
  have h' := (h utcHost scenario [] [.input "c"] []).length_eq
  revert h'
  decide

/-- C19, amended: whatever the state in which the request settles, in every state
reached from a successful load by search events and header clicks the view is a
permutation of `papers` filtered by the query of the last search event since the load,
and a permutation of the whole of `papers` when there was none: it holds the documents
that match that query, each as often as `papers` does, and a header click permutes the
view. -/
theorem view_perm_matching (P : Platform) (c : List Paper) (s0 : State)
    (es : List Event) (k : SortKey) :
    List.Perm (run P (loadPapers P (.ok c) s0) es).filtered
      (match lastInput es with
        | some q => filterPapers P c q
        | none => c) ∧
    (∀ q : String, lastInput es = some q →
      ∀ D : Paper, D ∈ (run P (loadPapers P (.ok c) s0) es).filtered
        ↔ D ∈ c ∧ SpecMatches P q D) ∧
    (lastInput es = none →
      ∀ D : Paper, D ∈ (run P (loadPapers P (.ok c) s0) es).filtered ↔ D ∈ c) ∧
    (∀ D : Paper, List.count D (run P (loadPapers P (.ok c) s0) es).filtered
      = List.count D (match lastInput es with
          | some q => filterPapers P c q
          | none => c)) ∧
    List.Perm (step P (run P (loadPapers P (.ok c) s0) es) (.click k)).filtered
      (run P (loadPapers P (.ok c) s0) es).filtered := by
  have h := run_view_perm P c s0 es
  refine ⟨h, ?_, ?_, fun D => h.count_eq D, jsSort_perm _ _⟩
  · intro q hq D
    rw [hq] at h
    rw [h.mem_iff]
    simp [filterPapers, matchesQuery_iff]
  · intro hq D
    rw [hq] at h
    exact h.mem_iff

/-! ## Derived paths stay in the directory `pdfs` -/

theorem count_slash_slug (P : Platform) (l : List Char) :
    List.count '/' (slugifyChars P l) = 0 ∧ List.count '\\' (slugifyChars P l) = 0 := by
  constructor
  · rw [List.count_eq_zero]
    intro h
    have := (slugifyChars_mem P l _ h).2.1
    revert this; decide
  · rw [List.count_eq_zero]
    intro h
    have := (slugifyChars_mem P l _ h).2.1
    revert this; decide

/-- C20: for a document whose `pdf` is absent or empty, the path of `getPdfPath` is
"pdfs/" followed by a slug and ".pdf", where the slug contains neither a slash nor a
backslash; the path contains one slash, the one after `pdfs`, and no backslash. -/
theorem derived_path_in_pdfs (P : Platform) (paper : Paper) (h : truthy paper.pdf = false) :
    getPdfPath P paper = "pdfs/" ++ slugify P paper.title ++ ".pdf" ∧
    '/' ∉ (slugify P paper.title).data ∧ '\\' ∉ (slugify P paper.title).data ∧
    List.count '/' (getPdfPath P paper).data = 1 ∧
    List.count '\\' (getPdfPath P paper).data = 0 := by
  have hpath : getPdfPath P paper = "pdfs/" ++ slugify P paper.title ++ ".pdf" := by
    simp [getPdfPath, h]
  have hc := count_slash_slug P paper.title.data
  refine ⟨hpath, ?_, ?_, ?_, ?_⟩
  · exact List.count_eq_zero.1 hc.1
  · exact List.count_eq_zero.1 hc.2
  · rw [hpath]
    simp only [String.data_append, List.count_append]
    show List.count '/' "pdfs/".data + List.count '/' (slugifyChars P paper.title.data)
      + List.count '/' ".pdf".data = 1
    rw [hc.1]
    decide
  · rw [hpath]
    simp only [String.data_append, List.count_append]
    show List.count '\\' "pdfs/".data + List.count '\\' (slugifyChars P paper.title.data)
      + List.count '\\' ".pdf".data = 0
    rw [hc.2]
    decide

/-- Witness of C20: a title made of dots, slashes and backslashes. -/
theorem derived_path_in_pdfs_witness :
    getPdfPath utcHost ⟨"..\\../x", none, none, none, some ""⟩
      = "pdfs/" ++ slugify utcHost "..\\../x" ++ ".pdf" ∧
    '/' ∉ (slugify utcHost "..\\../x").data ∧ '\\' ∉ (slugify utcHost "..\\../x").data ∧
    List.count '/' (getPdfPath utcHost ⟨"..\\../x", none, none, none, some ""⟩).data = 1 ∧
    List.count '\\' (getPdfPath utcHost ⟨"..\\../x", none, none, none, some ""⟩).data = 0 :=
  derived_path_in_pdfs utcHost ⟨"..\\../x", none, none, none, some ""⟩ (by decide)

/-! ## Titles that `slugify` only lower-cases -/

theorem lowerChars_clean (P : Platform) (l : List Char)
    (h : ∀ c ∈ l, isJsWhitespace c = false ∧ isHyphen c = false ∧ isStripped c = false) :
    ∀ c ∈ lowerChars P l,
      isJsWhitespace c = false ∧ isHyphen c = false ∧ isStripped c = false := by
  intro c hc
  obtain ⟨b, x, a, hx, hcx⟩ := mem_lowerFrom P [] l c hc
  obtain ⟨h1, h2, h3⟩ := P.lowerAt_class b x a c hcx
  obtain ⟨k1, k2, k3⟩ := h x hx
  refine ⟨?_, ?_, ?_⟩
  · cases hh : isJsWhitespace c
    · rfl
    · rw [h1 hh] at k1; cases k1
  · cases hh : isHyphen c
    · rfl
    · rw [h2 hh] at k2; cases k2
  · cases hh : isStripped c
    · rfl
    · rw [h3 hh] at k3; cases k3

theorem slugifyChars_of_clean (P : Platform) (l : List Char)
    (h : ∀ c ∈ l, isJsWhitespace c = false ∧ isHyphen c = false ∧ isStripped c = false) :
    slugifyChars P l = lowerChars P l := by
  have hm := lowerChars_clean P l h
  have e2 : trimChars (lowerChars P l) = lowerChars P l :=
    dropEnds_of_clean _ _ (fun c hc => (hm c (List.mem_of_mem_head? hc)).1)
      (fun c hc => (hm c (List.mem_of_mem_getLast? hc)).1)
  have e3 : deleteChars isStripped (lowerChars P l) = lowerChars P l :=
    List.filter_eq_self.2 (fun c hc => by simp [(hm c hc).2.2])
  have e4 : collapseRuns isJsWhitespace '-' (lowerChars P l) = lowerChars P l :=
    collapseRuns_of_none _ _ _ (fun c hc => (hm c hc).1)
  have e5 : collapseRuns isHyphen '-' (lowerChars P l) = lowerChars P l :=
    collapseRuns_of_none _ _ _ (fun c hc => (hm c hc).2.1)
  have e6 : stripHyphens (lowerChars P l) = lowerChars P l :=
    dropEnds_of_clean _ _ (fun c hc => (hm c (List.mem_of_mem_head? hc)).2.1)
      (fun c hc => (hm c (List.mem_of_mem_getLast? hc)).2.1)
  unfold slugifyChars
  rw [e2, e3, e4, e5, e6]

theorem isStripped_iff (c : Char) :
    isStripped c = true ↔ c ∈ [':', '\\', '/', '?', '*', '"', '<', '>', '|'] := by
  simp [isStripped, or_assoc]

/-- C18, as stated, fails: the title `a\b` has no white space, no hyphen and none of the
eight characters `: / ? * " < > |`, and its slug is `ab`, without the backslash. -/
theorem slugify_deletes_backslash :
    ¬ (∀ (P : Platform) (title : String),
        (∀ c ∈ title.data, isJsWhitespace c = false ∧ c ≠ '-' ∧
          c ∉ [':', '/', '?', '*', '"', '<', '>', '|']) →
        slugify P title = toLowerCase P title) := by
  intro h
  have h' := h utcHost "a\\b" (by decide)
  revert h'
  decide

/-- C18, amended: `slugify` deletes nine characters, the backslash and the eight
characters `: / ? * " < > |`; a title with no white space, no hyphen and none of the nine
has its lower-cased form, the result of `toLowerCase`, as slug, every character kept in
place. -/
theorem slugify_of_clean (P : Platform) (title : String)
    (h : ∀ c ∈ title.data, isJsWhitespace c = false ∧ c ≠ '-' ∧
      c ∉ [':', '\\', '/', '?', '*', '"', '<', '>', '|']) :
    slugify P title = toLowerCase P title ∧
    (∀ c ∈ [':', '\\', '/', '?', '*', '"', '<', '>', '|'],
      slugify P ⟨['a', c, 'b']⟩ = "ab") := by
  constructor
  · show (⟨slugifyChars P title.data⟩ : String) = ⟨lowerChars P title.data⟩
    rw [slugifyChars_of_clean]
    intro c hc
    obtain ⟨h1, h2, h3⟩ := h c hc
    refine ⟨h1, ?_, ?_⟩
    · cases hh : isHyphen c
      · rfl
      · exact absurd ((isHyphen_iff c).1 hh) h2
    · cases hs : isStripped c
      · rfl
      · exact absurd ((isStripped_iff c).1 hs) h3
  · intro c hc
    simp only [List.mem_cons, List.mem_singleton, List.not_mem_nil, or_false] at hc
    rcases hc with rfl | rfl | rfl | rfl | rfl | rfl | rfl | rfl | rfl <;>
      (show (⟨slugifyChars P _⟩ : String) = _
       rw [slugifyChars_ascii P _ (by decide)]
       decide)

/-- Witness of C18: a title with a dot, a capital letter of ASCII and one outside it. -/
theorem slugify_of_clean_witness :
    slugify utcHost "École.V2" = toLowerCase utcHost "École.V2" ∧
    (∀ c ∈ [':', '\\', '/', '?', '*', '"', '<', '>', '|'],
      slugify utcHost ⟨['a', c, 'b']⟩ = "ab") :=
  slugify_of_clean utcHost "École.V2" (by decide)

/-! ## The first view -/

theorem sortInsert_pairwise_rel {α : Type} (cmp : α → α → JSNum) (a : α) (l : List α)
    (hasym : ∀ b ∈ l, (cmp a b).isPositive = true → (cmp b a).isPositive = false)
    (htrans : ∀ b ∈ l, ∀ x ∈ l, (cmp a b).isPositive = false → (cmp b x).isPositive = false →
      (cmp a x).isPositive = false)
    (hl : l.Pairwise (fun x y => (cmp x y).isPositive = false)) :
    (sortInsert cmp a l).Pairwise (fun x y => (cmp x y).isPositive = false) := by
  induction l with
  | nil => simp [sortInsert]
  | cons b l ih =>
    rw [List.pairwise_cons] at hl
    unfold sortInsert
    split
    · rename_i hpos
      rw [List.pairwise_cons]
      refine ⟨?_, ih (fun x hx => hasym x (List.mem_cons_of_mem b hx))
        (fun x hx y hy => htrans x (List.mem_cons_of_mem b hx) y (List.mem_cons_of_mem b hy))
        hl.2⟩
      intro x hx
      rcases (mem_sortInsert cmp a x l).1 hx with rfl | hx
      · exact hasym b (List.mem_cons_self b l) hpos
      · exact hl.1 x hx
    · rename_i hpos
      have hab : (cmp a b).isPositive = false := by simpa using hpos
      rw [List.pairwise_cons]
      refine ⟨?_, List.pairwise_cons.2 hl⟩
      intro x hx
      rcases List.mem_cons.1 hx with rfl | hx
      · exact hab
      · exact htrans b (List.mem_cons_self b l) x (List.mem_cons_of_mem b hx) hab (hl.1 x hx)

theorem jsSort_pairwise_rel {α : Type} (cmp : α → α → JSNum) (l : List α)
    (hasym : ∀ a b, (cmp a b).isPositive = true → (cmp b a).isPositive = false)
    (htrans : ∀ a b x, (cmp a b).isPositive = false → (cmp b x).isPositive = false →
      (cmp a x).isPositive = false) :
    (jsSort cmp l).Pairwise (fun x y => (cmp x y).isPositive = false) := by
  induction l with
  | nil => simp [jsSort]
  | cons a l ih =>
    exact sortInsert_pairwise_rel cmp a _ (fun b _ => hasym a b)
      (fun b _ x _ => htrans a b x) ih

theorem comparePapers_title_asc (P : Platform) (a b : Paper) :
    (comparePapers P .title .asc a b).isPositive = decide (0 < P.localeCompare a.title b.title) := by
  simp [comparePapers, multiplier, JSNum.mul, JSNum.isPositive]

theorem compareChars_asym (s t : List Char) (h : 0 < compareChars s t) :
    compareChars t s ≤ 0 := by
  induction s generalizing t with
  | nil => cases t <;> simp [compareChars] at h
  | cons a s ih =>
    cases t with
    | nil => simp [compareChars]
    | cons b t =>
      simp only [compareChars] at h ⊢
      split_ifs at h ⊢ <;> first | omega | exact ih t h

theorem compareChars_trans (s t u : List Char) (h1 : compareChars s t ≤ 0)
    (h2 : compareChars t u ≤ 0) : compareChars s u ≤ 0 := by
  induction s generalizing t u with
  | nil => cases u <;> simp [compareChars]
  | cons a s ih =>
    cases t with
    | nil => simp [compareChars] at h1
    | cons b t =>
      cases u with
      | nil => simp [compareChars] at h2
      | cons c u =>
        simp only [compareChars] at h1 h2 ⊢
        split_ifs at h1 h2 ⊢ <;> first | omega | exact ih t u h1 h2

theorem run_inputs_sortState (P : Platform) (s : State) (qs : List String) :
    (run P s (qs.map Event.input)).sortState = s.sortState := by
  induction qs generalizing s with
  | nil => rfl
  | cons q qs ih =>
    show (run P (step P s (.input q)) (qs.map Event.input)).sortState = s.sortState
    rw [ih]
    rfl

/-- C14, as stated, fails: the load sorts by the sort state it finds, and a click on a
header while the request is pending changes it.  After a click on the date header and
the load of the scenario, the sort state is date ascending. -/
theorem load_uses_current_sortState :
    ¬ (∀ (P : Platform) (c : List Paper) (hdrs : List Header) (pre : List Event),
        (loadPapers P (.ok c) (run P (initialState hdrs) pre)).sortState = ⟨.title, .asc⟩) := by
  intro h
  have h' := h utcHost scenario [] [.click .date]
  revert h'
  decide

/-- C14, amended: whatever the state `s0` in which the request settles, after a
successful load of the collection `c` the full set `papers` is `c` in load order, the view
is `c` sorted under the sort state of `s0`, a permutation of `c`, the sort state is that of
`s0`, and the table body is the rendering of that view.  When no header was clicked
before (the events before the load were search events), the sort state is title
ascending and, on a host whose `localeCompare` is a consistent comparison, no document
of the view stands before one with a smaller title under `localeCompare`. -/
theorem load_success (P : Platform) (c : List Paper) (s0 : State) (hdrs : List Header)
    (qs : List String)
    (hasym : ∀ a b : String, 0 < P.localeCompare a b → P.localeCompare b a ≤ 0)
    (htrans : ∀ a b d : String, P.localeCompare a b ≤ 0 → P.localeCompare b d ≤ 0 →
      P.localeCompare a d ≤ 0) :
    (loadPapers P (.ok c) s0).papers = c ∧
    (loadPapers P (.ok c) s0).filtered
      = jsSort (comparePapers P s0.sortState.key s0.sortState.direction) c ∧
    List.Perm (loadPapers P (.ok c) s0).filtered c ∧
    (loadPapers P (.ok c) s0).sortState = s0.sortState ∧
    (loadPapers P (.ok c) s0).tableBody = renderRows P (loadPapers P (.ok c) s0).filtered ∧
    (loadPapers P (.ok c) (run P (initialState hdrs) (qs.map Event.input))).sortState
      = ⟨.title, .asc⟩ ∧
    (loadPapers P (.ok c) (run P (initialState hdrs) (qs.map Event.input))).filtered
      = jsSort (comparePapers P .title .asc) c ∧
    List.Pairwise (fun a b => P.localeCompare a.title b.title ≤ 0)
      (loadPapers P (.ok c) (run P (initialState hdrs) (qs.map Event.input))).filtered := by
  have hs : (run P (initialState hdrs) (qs.map Event.input)).sortState = ⟨.title, .asc⟩ :=
    run_inputs_sortState P (initialState hdrs) qs
  have hf : (loadPapers P (.ok c) (run P (initialState hdrs) (qs.map Event.input))).filtered
      = jsSort (comparePapers P .title .asc) c := by
    rw [loadPapers_ok_filtered, hs]
  refine ⟨rfl, rfl, jsSort_perm _ c, rfl, rfl, ?_, hf, ?_⟩
  · rw [loadPapers_ok_sortState, hs]
  · rw [hf]
    have h := jsSort_pairwise_rel (comparePapers P .title .asc) c
      (by
        intro a b hab
        rw [comparePapers_title_asc] at hab ⊢
        have := hasym a.title b.title (by simpa using hab)
        simp only [decide_eq_false_iff_not, not_lt]
        exact this)
      (by
        intro a b x hab hbx
        rw [comparePapers_title_asc] at hab hbx ⊢
        simp only [decide_eq_false_iff_not, not_lt] at hab hbx ⊢
        exact htrans _ _ _ hab hbx)
    refine List.Pairwise.imp ?_ h
    intro a b hab
    rw [comparePapers_title_asc] at hab
    simpa using hab

set_option maxRecDepth 100000 in
/-- Witness of C14: loading B Paper, A Paper, C Paper, after "c" was typed while the
request was pending, shows A Paper, B Paper, C Paper. -/
theorem load_success_witness :
    ((loadPapers utcHost (.ok scenario) (initialState [])).papers = scenario ∧
      (loadPapers utcHost (.ok scenario) (initialState [])).filtered
        = jsSort (comparePapers utcHost (initialState []).sortState.key
            (initialState []).sortState.direction) scenario ∧
      List.Perm (loadPapers utcHost (.ok scenario) (initialState [])).filtered scenario ∧
      (loadPapers utcHost (.ok scenario) (initialState [])).sortState
        = (initialState []).sortState ∧
      (loadPapers utcHost (.ok scenario) (initialState [])).tableBody
        = renderRows utcHost (loadPapers utcHost (.ok scenario) (initialState [])).filtered ∧
      (loadPapers utcHost (.ok scenario)
          (run utcHost (initialState []) (["c"].map Event.input))).sortState
        = ⟨.title, .asc⟩ ∧
      (loadPapers utcHost (.ok scenario)
          (run utcHost (initialState []) (["c"].map Event.input))).filtered
        = jsSort (comparePapers utcHost .title .asc) scenario ∧
      List.Pairwise (fun a b => utcHost.localeCompare a.title b.title ≤ 0)
        (loadPapers utcHost (.ok scenario)
          (run utcHost (initialState []) (["c"].map Event.input))).filtered) ∧
    (loadPapers utcHost (.ok scenario)
        (run utcHost (initialState []) (["c"].map Event.input))).filtered
      = [paperA, paperB, paperC] ∧
    (loadPapers utcHost (.ok scenario)
        (run utcHost (initialState []) (["c"].map Event.input))).tableBody
      = [renderRow utcHost paperA, renderRow utcHost paperB, renderRow utcHost paperC] ∧
    readRow (rowMarkup utcHost paperA)
      = some ⟨["A Paper", "", "", "Jan 1, 2024",
            "\n        \n          View\n          Download\n        \n      "],
          ["pdfs/a-paper.pdf", "pdfs/a-paper.pdf"]⟩ :=
  ⟨load_success utcHost scenario (initialState []) [] ["c"]
      (fun a b h => compareChars_asym _ _ h)
      (fun a b d h1 h2 => compareChars_trans _ _ _ h1 h2),
    by decide, by decide, by decide⟩

end PapersPage
